import Mathlib

/-!
arm64_intrinsics: classifier, key codec, virtual registers, catalog and lowerer.

A shallow embedding of `src/arm64_intrinsics.cpp`.

* `uint32_t` and `uint8_t` values are natural numbers, truncated with `u32` and
  `u8` wherever the source converts to those types.
* The instruction buffer `data` is a list of bytes; `load32` is the source's
  `*(uint32_t *)data` on a little-endian host.
* The registry `msr` (the autogenerated map included from `msr.h`) is a
  parameter of every function that consults it.
* The wrapped base architecture (`ArchitectureHook::...`) is a parameter of
  every overriding method.
* `msr` is a mutable global. The functions named `Stateful.*` pass the map
  explicitly, from the map before a call to the map after it; a value of the running
  map is a `const char *`, possibly null.
-/

namespace A64

abbrev ISB : Nat := 0x4141
abbrev WFI : Nat := 0x4142
abbrev WFE : Nat := 0x4143
abbrev MSR_IMM : Nat := 0x4144
abbrev MSR_REG : Nat := 0x4145
abbrev MRS : Nat := 0x4146

/-- Base for the synthesized status registers. -/
abbrev MSR_BASE : Nat := 0x4200

end A64

namespace arm64Intrinsics

/-! ## Machine integers and the instruction buffer -/

/-- Conversion to `uint32_t`. -/
def u32 (n : Nat) : Nat := n % 2 ^ 32

/-- Conversion to `uint8_t`. -/
def u8 (n : Nat) : Nat := n % 2 ^ 8

/-- The byte `data[i]`; bytes past the end of the list read as zero (the source
never reads them: `DecodeIntrinsic` returns before the load when `sz < 4`). -/
def byteAt (data : List Nat) (i : Nat) : Nat := u8 (data.getD i 0)

/-- The load `*(uint32_t *)data` on a little-endian host. -/
def load32 (data : List Nat) : Nat :=
  byteAt data 0 + 2 ^ 8 * byteAt data 1 + 2 ^ 16 * byteAt data 2 + 2 ^ 24 * byteAt data 3

/-- The four bytes of a 32-bit word as they lie in memory (little-endian). -/
def bytes32 (w : Nat) : List Nat :=
  [w % 2 ^ 8, w / 2 ^ 8 % 2 ^ 8, w / 2 ^ 16 % 2 ^ 8, w / 2 ^ 24 % 2 ^ 8]

/-! ## The registry -/

/-- The static map `msr` of `msr.h` (key to register name), in iteration order.
The header is not part of the sources, so the map is a parameter. -/
abbrev Registry := List (Nat × String)

/-- The lookup `msr.find(key)`: the stored name, or `none` for `msr.end()`. -/
def Registry.find (msr : Registry) (key : Nat) : Option String :=
  List.lookup key msr

/-- The keys of the registry in iteration order. -/
def Registry.keys (msr : Registry) : List Nat := msr.map Prod.fst

/-! ## Field extraction and the key codec -/

def SrOp0 (ins : Nat) : Nat := u8 (((ins >>> 19) &&& 0b1) + 2)

def SrOp1 (ins : Nat) : Nat := u8 ((ins >>> 16) &&& 0b111)

def SrOp2 (ins : Nat) : Nat := u8 ((ins >>> 5) &&& 0b111)

def SrXt (ins : Nat) : Nat := u8 (ins &&& 0b11111)

def SrCm (ins : Nat) : Nat := u8 ((ins >>> 8) &&& 0b1111)

def SrCn (ins : Nat) : Nat := u8 ((ins >>> 12) &&& 0b1111)

/-- The key `o0 << 14 | o1 << 11 | Cn << 7 | Cm << 3 | o2`; the parameters are
`uint8_t`, the result `uint32_t`. -/
def StatusReg (o0 o1 Cn Cm o2 : Nat) : Nat :=
  u32 (((((u8 o0 <<< 14) ||| (u8 o1 <<< 11)) ||| (u8 Cn <<< 7)) ||| (u8 Cm <<< 3)) ||| u8 o2)

def ValidStatusReg (msr : Registry) (o0 o1 Cn Cm o2 : Nat) : Bool :=
  let key := StatusReg o0 o1 Cn Cm o2
  (msr.find key).isSome

/-- The key addressed by an instruction word, as both the classifier and the
lowerer compute it. -/
def insKey (ins : Nat) : Nat :=
  StatusReg (SrOp0 ins) (SrOp1 ins) (SrCn ins) (SrCm ins) (SrOp2 ins)

/-! ## The classifier -/

/-- The source's chain of early returns. A guarded return
`if (class test) if (ValidStatusReg(...)) return X;` is taken when both tests hold and
falls through to the next check otherwise, so it is one conditional on the
conjunction. -/
def DecodeIntrinsic (msr : Registry) (data : List Nat) (sz : Nat) : Nat :=
  if sz < 4 then 0
  else
    let candidate := load32 data
    let isb := 0b11010101000000110011000011011111
    let isb_mask := 0b11111111111111111111000011111111
    if (candidate &&& isb_mask) = isb then A64.ISB
    else
      let wfi := 0b11010101000000110010000001111111
      if candidate = wfi then A64.WFI
      else
        let wfe := 0b11010101000000110010000001011111
        if candidate = wfe then A64.WFE
        else if candidate >>> 20 = 0b110101010001 ∧
            ValidStatusReg msr (SrOp0 candidate) (SrOp1 candidate) (SrCn candidate)
              (SrCm candidate) (SrOp2 candidate) = true then A64.MSR_REG
        else
          let msr_imm := 0b11010101000000000100000000011111
          let msr_imm_mask := 0b11010101000000000100000000011111
          if (candidate &&& msr_imm_mask) = msr_imm ∧
              ValidStatusReg msr (SrOp0 candidate) (SrOp1 candidate) (SrCn candidate)
                (SrCm candidate) (SrOp2 candidate) = true then A64.MSR_IMM
          else if candidate >>> 20 = 0b110101010011 ∧
              ValidStatusReg msr (SrOp0 candidate) (SrOp1 candidate) (SrCn candidate)
                (SrCm candidate) (SrOp2 candidate) = true then A64.MRS
          else 0

/-! ## The intermediate representation -/

/-- An output operand of an intrinsic. -/
inductive RegisterOrFlag where
  | Register (reg : Nat)
  | Flag (flag : Nat)
  deriving DecidableEq, Repr

/-- An input expression: `il.Register(size, reg)` is a read of `size` bytes of
register `reg`. -/
inductive ILExpr where
  | Register (size : Nat) (reg : Nat)
  deriving DecidableEq, Repr

/-- An instruction of the lifted function: `il.Intrinsic(outputs, id, params)`,
or an instruction appended by the base architecture. -/
inductive ILInstruction where
  | Intrinsic (outputs : List RegisterOrFlag) (intrinsic : Nat) (params : List ILExpr)
  | BaseLifted (tag : Nat)
  deriving DecidableEq, Repr

/-- The function being lifted: the instructions added so far, in order. -/
structure LowLevelILFunction where
  instrs : List ILInstruction
  deriving DecidableEq, Repr

def LowLevelILFunction.AddInstruction (il : LowLevelILFunction) (i : ILInstruction) :
    LowLevelILFunction :=
  ⟨il.instrs ++ [i]⟩

/-- The outcome of lifting one instruction: the returned status, the value left
in the in/out length, and the function after the call. -/
structure Lifted where
  ok : Bool
  len : Nat
  il : LowLevelILFunction
  deriving DecidableEq, Repr

/-- The base architecture's `GetInstructionLowLevelIL(data, addr, len, il)`. -/
abbrev BaseLifter := List Nat → Nat → Nat → LowLevelILFunction → Lifted

/-! ## The hook's overrides -/

def GetAllRegisters (msr : Registry) (baseRegs : List Nat) : List Nat :=
  baseRegs ++ msr.map (fun ii => u32 (A64.MSR_BASE + ii.1))

/-- The source's `switch` on the classification. There are cases for ISB, WFI, WFE,
MSR_REG and MRS; every other value, MSR_IMM and 0 included, reaches `default`, which
returns the base architecture's result. The five cases leave `len = 4` and return
`true`. -/
def GetInstructionLowLevelIL (msr : Registry) (base : BaseLifter) (data : List Nat)
    (addr : Nat) (len : Nat) (il : LowLevelILFunction) : Lifted :=
  let c := DecodeIntrinsic msr data len
  if c = A64.ISB then
    ⟨true, 4, il.AddInstruction (.Intrinsic [] A64.ISB [])⟩
  else if c = A64.WFI then
    ⟨true, 4, il.AddInstruction (.Intrinsic [] A64.WFI [])⟩
  else if c = A64.WFE then
    ⟨true, 4, il.AddInstruction (.Intrinsic [] A64.WFE [])⟩
  else if c = A64.MSR_REG then
    let ins := load32 data
    ⟨true, 4, il.AddInstruction (.Intrinsic
      [.Register (u32 (A64.MSR_BASE +
        StatusReg (SrOp0 ins) (SrOp1 ins) (SrCn ins) (SrCm ins) (SrOp2 ins)))]
      A64.MSR_REG
      [.Register 8 (u32 (34 + SrXt ins))])⟩
  else if c = A64.MRS then
    let ins := load32 data
    ⟨true, 4, il.AddInstruction (.Intrinsic
      [.Register (u32 (34 + SrXt ins))]
      A64.MRS
      [.Register 4 (u32 (A64.MSR_BASE +
        StatusReg (SrOp0 ins) (SrOp1 ins) (SrCn ins) (SrCm ins) (SrOp2 ins)))])⟩
  else
    base data addr len il

def GetSystemRegisters (msr : Registry) (baseRegs : List Nat) : List Nat :=
  baseRegs ++ msr.map (fun ii => u32 (A64.MSR_BASE + ii.1))

def GetFullWidthRegisters (msr : Registry) (baseRegs : List Nat) : List Nat :=
  baseRegs ++ msr.map (fun ii => u32 (A64.MSR_BASE + ii.1))

/-- The subtraction `a - b` of two `uint32_t` values, which wraps around. -/
def sub32 (a b : Nat) : Nat := (u32 a + 2 ^ 32 - u32 b) % 2 ^ 32

/-! ### The map while the program runs

`msr` is a mutable global: `operator[]` may insert into it. The functions below pass the
map explicitly, taking the map before a call and returning the result of the call with the
map after it. -/

/-- The map `msr` as the running program holds it, in iteration order. A value is a
`const char *`: `some name`, or `none` for the null pointer. -/
abbrev MapState := List (Nat × Option String)

/-- The registry as loaded from `msr.h`: every name is a non-null pointer. -/
def Registry.state (msr : Registry) : MapState := msr.map (fun e => (e.1, some e.2))

/-- The lookup `msr.find(key)` on the running map: the stored value, or `none` for
`msr.end()`. It does not change the map. -/
def MapState.find (m : MapState) (key : Nat) : Option (Option String) :=
  List.lookup key m

/-- Modelled from the spec: the insertion of a value-initialised entry for an absent key.
The container is declared in `msr.h`, which is not part of the sources; it is an ordered
map, iterated by ascending key, so the entry `(key, null)` goes before the first entry
with a larger key. -/
def MapState.insertDefault : MapState → Nat → MapState
  | [], key => [(key, none)]
  | e :: t, key =>
    if key < e.1 then (key, none) :: e :: t else e :: MapState.insertDefault t key

/-- The map's `operator[]`, as `msr[key]` uses it: the stored value when the key is
present, and the map is left as it is; when the key is absent a value-initialised entry
(a null pointer) is inserted and that value is returned. -/
def MapState.index (m : MapState) (key : Nat) : Option String × MapState :=
  match MapState.find m key with
  | some v => (v, m)
  | none => (none, MapState.insertDefault m key)

/-- The conversion of the returned `const char *` to `std::string`. Constructing a
string from a null pointer is undefined in C++; the value `""` stands for it. -/
def toStdString : Option String → String
  | some name => name
  | none => ""

def Stateful.ValidStatusReg (m : MapState) (o0 o1 Cn Cm o2 : Nat) : Bool × MapState :=
  let key := StatusReg o0 o1 Cn Cm o2
  ((MapState.find m key).isSome, m)

def Stateful.StatusRegName (m : MapState) (key : Nat) : Option String × MapState :=
  MapState.index m key

/-- The classifier, passing the map through every call of `ValidStatusReg`. A class test
that fails makes no call. -/
def Stateful.DecodeIntrinsic (m : MapState) (data : List Nat) (sz : Nat) : Nat × MapState :=
  if sz < 4 then (0, m)
  else
    let candidate := load32 data
    let isb := 0b11010101000000110011000011011111
    let isb_mask := 0b11111111111111111111000011111111
    if (candidate &&& isb_mask) = isb then (A64.ISB, m)
    else
      let wfi := 0b11010101000000110010000001111111
      if candidate = wfi then (A64.WFI, m)
      else
        let wfe := 0b11010101000000110010000001011111
        if candidate = wfe then (A64.WFE, m)
        else
          let v1 :=
            if candidate >>> 20 = 0b110101010001 then
              Stateful.ValidStatusReg m (SrOp0 candidate) (SrOp1 candidate) (SrCn candidate)
                (SrCm candidate) (SrOp2 candidate)
            else (false, m)
          if v1.1 = true then (A64.MSR_REG, v1.2)
          else
            let msr_imm := 0b11010101000000000100000000011111
            let msr_imm_mask := 0b11010101000000000100000000011111
            let v2 :=
              if (candidate &&& msr_imm_mask) = msr_imm then
                Stateful.ValidStatusReg v1.2 (SrOp0 candidate) (SrOp1 candidate)
                  (SrCn candidate) (SrCm candidate) (SrOp2 candidate)
              else (false, v1.2)
            if v2.1 = true then (A64.MSR_IMM, v2.2)
            else
              let v3 :=
                if candidate >>> 20 = 0b110101010011 then
                  Stateful.ValidStatusReg v2.2 (SrOp0 candidate) (SrOp1 candidate)
                    (SrCn candidate) (SrCm candidate) (SrOp2 candidate)
                else (false, v2.2)
              if v3.1 = true then (A64.MRS, v3.2) else (0, v3.2)

/-- The three enumerations iterate over the map by constant reference. -/
def Stateful.GetAllRegisters (m : MapState) (baseRegs : List Nat) : List Nat × MapState :=
  (baseRegs ++ m.map (fun ii => u32 (A64.MSR_BASE + ii.1)), m)

def Stateful.GetSystemRegisters (m : MapState) (baseRegs : List Nat) : List Nat × MapState :=
  (baseRegs ++ m.map (fun ii => u32 (A64.MSR_BASE + ii.1)), m)

def Stateful.GetFullWidthRegisters (m : MapState) (baseRegs : List Nat) :
    List Nat × MapState :=
  (baseRegs ++ m.map (fun ii => u32 (A64.MSR_BASE + ii.1)), m)

/-- The override of `GetRegisterName` on the running map: a `find`, then, only when it
hit, `StatusRegName`, whose result is converted to `std::string`. -/
def Stateful.GetRegisterName (m : MapState) (baseName : Nat → String) (reg : Nat) :
    String × MapState :=
  let key := sub32 reg A64.MSR_BASE
  if (MapState.find m key).isSome then
    let r := Stateful.StatusRegName m key
    (toStdString r.1, r.2)
  else (baseName reg, m)

/-- The override of `GetRegisterName` on the registry as loaded; `baseName` is the base
architecture's `GetRegisterName`. The result is the name and the map after the call. -/
def GetRegisterName (msr : Registry) (baseName : Nat → String) (reg : Nat) :
    String × MapState :=
  Stateful.GetRegisterName msr.state baseName reg

/-- Modelled from the spec: the extension semantics of a register (the enumeration of
the host's API; the override only uses `NoExtend`, "no sign/zero extension"). -/
inductive ImplicitRegisterExtend where
  | NoExtend
  | ZeroExtendToFullWidth
  | SignExtendToFullWidth
  deriving DecidableEq, Repr

/-- Modelled from the spec: the register-info record of the host's API, with the four
fields the override sets (full-width register, byte offset, byte size, extension). -/
structure BNRegisterInfo where
  fullWidthRegister : Nat
  offset : Nat
  size : Nat
  extend : ImplicitRegisterExtend
  deriving DecidableEq, Repr

/-- The override of `GetRegisterInfo`; `baseInfo` is the base architecture's
`GetRegisterInfo`. -/
def GetRegisterInfo (msr : Registry) (baseInfo : Nat → BNRegisterInfo) (reg : Nat) :
    BNRegisterInfo :=
  let key := sub32 reg A64.MSR_BASE
  if (msr.find key).isSome then
    { fullWidthRegister := reg, offset := 0, size := 4,
      extend := ImplicitRegisterExtend.NoExtend }
  else baseInfo reg

/-- The override of `GetRegisterInfo` on the running map. -/
def Stateful.GetRegisterInfo (m : MapState) (baseInfo : Nat → BNRegisterInfo) (reg : Nat) :
    BNRegisterInfo × MapState :=
  let key := sub32 reg A64.MSR_BASE
  if (MapState.find m key).isSome then
    ({ fullWidthRegister := reg, offset := 0, size := 4,
       extend := ImplicitRegisterExtend.NoExtend }, m)
  else (baseInfo reg, m)

/-- Modelled from the spec: a type of the host's API. `IntegerType width sign` is
`Type::IntegerType(width, sign)`, an integer of `width` bytes, unsigned when `sign` is
`false`; `Other` stands for every other type the base architecture may use. -/
inductive BNType where
  | IntegerType (width : Nat) (sign : Bool)
  | Other (tag : Nat)
  deriving DecidableEq, Repr

/-- Modelled from the spec: an intrinsic input of the host's API, a type with a name;
`NameAndType(type)` leaves the name empty. -/
structure NameAndType where
  name : String
  type : BNType
  deriving DecidableEq, Repr

/-- The override of `GetIntrinsicName`; `baseName` is the base architecture's. -/
def GetIntrinsicName (baseName : Nat → String) (intrinsic : Nat) : String :=
  if intrinsic = A64.ISB then "__isb"
  else if intrinsic = A64.WFI then "__wfi"
  else if intrinsic = A64.WFE then "__wfe"
  else if intrinsic = A64.MSR_IMM ∨ intrinsic = A64.MSR_REG then "_WriteStatusReg"
  else if intrinsic = A64.MRS then "_ReadStatusReg"
  else baseName intrinsic

def GetAllIntrinsics (baseIntrinsics : List Nat) : List Nat :=
  baseIntrinsics ++ [A64.ISB, A64.WFE, A64.WFI, A64.MSR_IMM, A64.MSR_REG, A64.MRS]

/-- The override of `GetIntrinsicInputs`; `baseInputs` is the base architecture's. -/
def GetIntrinsicInputs (baseInputs : Nat → List NameAndType) (intrinsic : Nat) :
    List NameAndType :=
  if intrinsic = A64.ISB then []
  else if intrinsic = A64.WFI then []
  else if intrinsic = A64.WFE then []
  else if intrinsic = A64.MSR_IMM then [⟨"", BNType.IntegerType 4 false⟩]
  else if intrinsic = A64.MSR_REG then [⟨"", BNType.IntegerType 8 false⟩]
  else if intrinsic = A64.MRS then [⟨"", BNType.IntegerType 4 false⟩]
  else baseInputs intrinsic

/-- The override of `GetIntrinsicOutputs`; `baseOutputs` is the base architecture's.
An output is a type (the source wraps it with the default confidence). -/
def GetIntrinsicOutputs (baseOutputs : Nat → List BNType) (intrinsic : Nat) :
    List BNType :=
  if intrinsic = A64.ISB then []
  else if intrinsic = A64.WFI then []
  else if intrinsic = A64.WFE then []
  else if intrinsic = A64.MSR_IMM ∨ intrinsic = A64.MSR_REG then [BNType.IntegerType 4 false]
  else if intrinsic = A64.MRS then [BNType.IntegerType 8 false]
  else baseOutputs intrinsic

/-! ## Buffer and bit-level lemmas -/

theorem u8_lt (n : Nat) : u8 n < 2 ^ 8 := Nat.mod_lt _ (by norm_num)

theorem u8_of_lt {n : Nat} (h : n < 2 ^ 8) : u8 n = n := Nat.mod_eq_of_lt h

theorem u32_of_lt {n : Nat} (h : n < 2 ^ 32) : u32 n = n := Nat.mod_eq_of_lt h

theorem load32_lt (data : List Nat) : load32 data < 2 ^ 32 := by
  have h0 := u8_lt (data.getD 0 0)
  have h1 := u8_lt (data.getD 1 0)
  have h2 := u8_lt (data.getD 2 0)
  have h3 := u8_lt (data.getD 3 0)
  simp only [load32, byteAt]
  omega

/-- Every 32-bit word is read back from the buffer that holds its four bytes. -/
theorem load32_bytes32 {w : Nat} (hw : w < 2 ^ 32) (rest : List Nat) :
    load32 (bytes32 w ++ rest) = w := by
  simp only [load32, byteAt, bytes32, u8, List.cons_append, List.getD_cons_zero,
    List.getD_cons_succ, Nat.mod_mod]
  omega

/-- Bit `i` of both sides of a masked comparison. -/
theorem testBit_of_and_eq {w m p : Nat} (h : w &&& m = p) (i : Nat) :
    (w.testBit i && m.testBit i) = p.testBit i := by
  rw [← h, Nat.testBit_and]

/-- Bit `j` of the top field `w >> i`. -/
theorem testBit_of_shiftRight_eq {w p : Nat} {i : Nat} (h : w >>> i = p) (j : Nat) :
    w.testBit (i + j) = p.testBit j := by
  rw [← h, Nat.testBit_shiftRight]

/-- A word matching the ISB pattern under the ISB mask has bit 20 clear. -/
theorem isb_bit20 {w : Nat} (h : w &&& 0b11111111111111111111000011111111
    = 0b11010101000000110011000011011111) : w.testBit 20 = false := by
  have h1 := testBit_of_and_eq h 20
  have h2 : Nat.testBit 0b11111111111111111111000011111111 20 = true := by decide
  have h3 : Nat.testBit 0b11010101000000110011000011011111 20 = false := by decide
  rw [h2, h3] at h1
  simpa using h1

/-- A word of the MSR_REG class (top twelve bits `0xD51`) has bit 20 set. -/
theorem msr_reg_bit20 {w : Nat} (h : w >>> 20 = 0b110101010001) : w.testBit 20 = true := by
  have h1 := testBit_of_shiftRight_eq h 0
  have h2 : Nat.testBit 0b110101010001 0 = true := by decide
  rw [h2] at h1
  simpa using h1

/-- A word of the MRS class (top twelve bits `0xD53`) has bit 20 set. -/
theorem mrs_bit20 {w : Nat} (h : w >>> 20 = 0b110101010011) : w.testBit 20 = true := by
  have h1 := testBit_of_shiftRight_eq h 0
  have h2 : Nat.testBit 0b110101010011 0 = true := by decide
  rw [h2] at h1
  simpa using h1

/-- The classifier on a buffer holding the word `w`, as a chain of tests on `w`. -/
theorem DecodeIntrinsic_bytes32 (msr : Registry) {w : Nat} (hw : w < 2 ^ 32)
    (rest : List Nat) {sz : Nat} (hsz : 4 ≤ sz) :
    DecodeIntrinsic msr (bytes32 w ++ rest) sz =
      if (w &&& 0b11111111111111111111000011111111) = 0b11010101000000110011000011011111
      then A64.ISB
      else if w = 0b11010101000000110010000001111111 then A64.WFI
      else if w = 0b11010101000000110010000001011111 then A64.WFE
      else if w >>> 20 = 0b110101010001 ∧ (msr.find (insKey w)).isSome = true then A64.MSR_REG
      else if (w &&& 0b11010101000000000100000000011111) = 0b11010101000000000100000000011111
          ∧ (msr.find (insKey w)).isSome = true then A64.MSR_IMM
      else if w >>> 20 = 0b110101010011 ∧ (msr.find (insKey w)).isSome = true then A64.MRS
      else 0 := by
  have h : ¬ sz < 4 := by omega
  simp only [DecodeIntrinsic, h, if_false, load32_bytes32 hw, ValidStatusReg, insKey]

/-! ## The key codec in arithmetic form -/

/-- A bitwise or of a multiple of `2 ^ i` with a value below `2 ^ i` is their sum. -/
theorem or_eq_add_of_dvd {a b : Nat} (i : Nat) (hb : b < 2 ^ i) (ha : 2 ^ i ∣ a) :
    a ||| b = a + b := by
  obtain ⟨c, rfl⟩ := ha
  exact (Nat.mul_add_lt_is_or hb c).symm

/-- The packed fields, for fields within their bit-widths, without bitwise operators. -/
theorem pack_eq_add {o0 o1 Cn Cm o2 : Nat} (h1 : o1 < 8) (hn : Cn < 16)
    (hm : Cm < 16) (h2 : o2 < 8) :
    ((((o0 <<< 14) ||| (o1 <<< 11)) ||| (Cn <<< 7)) ||| (Cm <<< 3)) ||| o2
      = o0 * 16384 + o1 * 2048 + Cn * 128 + Cm * 8 + o2 := by
  simp only [Nat.shiftLeft_eq]
  have e1 : o0 * 2 ^ 14 ||| o1 * 2 ^ 11 = o0 * 16384 + o1 * 2048 := by
    rw [or_eq_add_of_dvd 14 (by omega) (by omega)]
    omega
  have e2 : (o0 * 16384 + o1 * 2048) ||| Cn * 2 ^ 7 = o0 * 16384 + o1 * 2048 + Cn * 128 := by
    rw [or_eq_add_of_dvd 11 (by omega) (by omega)]
    omega
  have e3 : (o0 * 16384 + o1 * 2048 + Cn * 128) ||| Cm * 2 ^ 3
      = o0 * 16384 + o1 * 2048 + Cn * 128 + Cm * 8 := by
    rw [or_eq_add_of_dvd 7 (by omega) (by omega)]
    omega
  rw [e1, e2, e3]
  exact or_eq_add_of_dvd 3 (by omega) (by omega)

/-- `StatusReg` on fields within their bit-widths, without bitwise operators. -/
theorem StatusReg_eq_add {o0 o1 Cn Cm o2 : Nat} (h0 : o0 < 4) (h1 : o1 < 8) (hn : Cn < 16)
    (hm : Cm < 16) (h2 : o2 < 8) :
    StatusReg o0 o1 Cn Cm o2 = o0 * 16384 + o1 * 2048 + Cn * 128 + Cm * 8 + o2 := by
  unfold StatusReg
  rw [u8_of_lt (by omega : o0 < 2 ^ 8), u8_of_lt (by omega : o1 < 2 ^ 8),
    u8_of_lt (by omega : Cn < 2 ^ 8), u8_of_lt (by omega : Cm < 2 ^ 8),
    u8_of_lt (by omega : o2 < 2 ^ 8), pack_eq_add h1 hn hm h2]
  exact u32_of_lt (by omega)

/-- A mask of `n` low bits is a remainder. -/
theorem and_mask_eq_mod (x n : Nat) : x &&& (2 ^ n - 1) = x % 2 ^ n :=
  Nat.and_pow_two_sub_one_eq_mod x n

theorem SrOp0_eq (ins : Nat) : SrOp0 ins = ins / 2 ^ 19 % 2 + 2 := by
  unfold SrOp0
  rw [show (0b1 : Nat) = 2 ^ 1 - 1 from rfl, Nat.and_pow_two_sub_one_eq_mod,
    Nat.shiftRight_eq_div_pow]
  exact u8_of_lt (by omega)

theorem SrOp1_eq (ins : Nat) : SrOp1 ins = ins / 2 ^ 16 % 8 := by
  unfold SrOp1
  rw [show (0b111 : Nat) = 2 ^ 3 - 1 from rfl, Nat.and_pow_two_sub_one_eq_mod,
    Nat.shiftRight_eq_div_pow]
  exact u8_of_lt (by omega)

theorem SrOp2_eq (ins : Nat) : SrOp2 ins = ins / 2 ^ 5 % 8 := by
  unfold SrOp2
  rw [show (0b111 : Nat) = 2 ^ 3 - 1 from rfl, Nat.and_pow_two_sub_one_eq_mod,
    Nat.shiftRight_eq_div_pow]
  exact u8_of_lt (by omega)

theorem SrXt_eq (ins : Nat) : SrXt ins = ins % 32 := by
  unfold SrXt
  rw [show (0b11111 : Nat) = 2 ^ 5 - 1 from rfl, Nat.and_pow_two_sub_one_eq_mod]
  exact u8_of_lt (by omega)

theorem SrCm_eq (ins : Nat) : SrCm ins = ins / 2 ^ 8 % 16 := by
  unfold SrCm
  rw [show (0b1111 : Nat) = 2 ^ 4 - 1 from rfl, Nat.and_pow_two_sub_one_eq_mod,
    Nat.shiftRight_eq_div_pow]
  exact u8_of_lt (by omega)

theorem SrCn_eq (ins : Nat) : SrCn ins = ins / 2 ^ 12 % 16 := by
  unfold SrCn
  rw [show (0b1111 : Nat) = 2 ^ 4 - 1 from rfl, Nat.and_pow_two_sub_one_eq_mod,
    Nat.shiftRight_eq_div_pow]
  exact u8_of_lt (by omega)

/-- The key addressed by a word, without bitwise operators. -/
theorem insKey_eq_add (ins : Nat) :
    insKey ins = (ins / 2 ^ 19 % 2 + 2) * 16384 + (ins / 2 ^ 16 % 8) * 2048
      + (ins / 2 ^ 12 % 16) * 128 + (ins / 2 ^ 8 % 16) * 8 + ins / 2 ^ 5 % 8 := by
  unfold insKey
  rw [SrOp0_eq, SrOp1_eq, SrOp2_eq, SrCm_eq, SrCn_eq]
  exact StatusReg_eq_add (by omega) (by omega) (by omega) (by omega) (by omega)

/-- The key addressed by a word fits in sixteen bits. -/
theorem insKey_lt (ins : Nat) : insKey ins < 2 ^ 16 := by
  rw [insKey_eq_add]
  omega

/-! ## Registry membership and class lemmas -/

/-- A lookup hits exactly when the key is one of the registry's keys. -/
theorem find_isSome_iff (msr : Registry) (key : Nat) :
    (msr.find key).isSome = true ↔ key ∈ msr.keys := by
  induction msr with
  | nil => simp [Registry.find, Registry.keys]
  | cons e t ih =>
    obtain ⟨k, v⟩ := e
    simp only [Registry.find, Registry.keys, List.map_cons, List.mem_cons] at ih ⊢
    by_cases hk : key = k
    · subst hk
      simp [List.lookup]
    · have hb : (key == k) = false := by simpa using hk
      simp only [List.lookup, hb, hk, false_or]
      exact ih

/-- A lookup misses exactly when the key is none of the registry's keys. -/
theorem find_isSome_false_iff (msr : Registry) (key : Nat) :
    (msr.find key).isSome = false ↔ key ∉ msr.keys := by
  rw [← find_isSome_iff]
  simp

/-- The id synthesized for a key of the registry is among the ids that
`GetAllRegisters` appends to the base list. -/
theorem mem_synthesized {msr : Registry} {key : Nat} (h : key ∈ msr.keys)
    (baseRegs : List Nat) :
    u32 (A64.MSR_BASE + key) ∈ (GetAllRegisters msr baseRegs).drop baseRegs.length := by
  simp only [GetAllRegisters, List.drop_left, List.mem_map]
  simp only [Registry.keys, List.mem_map] at h
  obtain ⟨e, he, rfl⟩ := h
  exact ⟨e, he, rfl⟩

/-- A word of the MSR_REG class matches neither the ISB mask nor WFI, WFE or the MRS
class. -/
theorem msr_reg_class_excl {w : Nat} (h : w >>> 20 = 0b110101010001) :
    ¬ (w &&& 0b11111111111111111111000011111111 = 0b11010101000000110011000011011111) ∧
    w ≠ 0b11010101000000110010000001111111 ∧ w ≠ 0b11010101000000110010000001011111 ∧
    ¬ (w >>> 20 = 0b110101010011) := by
  refine ⟨?_, ?_, ?_, ?_⟩
  · intro hi
    have := isb_bit20 hi
    rw [msr_reg_bit20 h] at this
    exact absurd this (by decide)
  · rintro rfl
    exact absurd h (by decide)
  · rintro rfl
    exact absurd h (by decide)
  · rw [h]
    decide

/-- A word of the MRS class matches neither the ISB mask nor WFI, WFE or the MSR_REG
class. -/
theorem mrs_class_excl {w : Nat} (h : w >>> 20 = 0b110101010011) :
    ¬ (w &&& 0b11111111111111111111000011111111 = 0b11010101000000110011000011011111) ∧
    w ≠ 0b11010101000000110010000001111111 ∧ w ≠ 0b11010101000000110010000001011111 ∧
    ¬ (w >>> 20 = 0b110101010001) := by
  refine ⟨?_, ?_, ?_, ?_⟩
  · intro hi
    have := isb_bit20 hi
    rw [mrs_bit20 h] at this
    exact absurd this (by decide)
  · rintro rfl
    exact absurd h (by decide)
  · rintro rfl
    exact absurd h (by decide)
  · rw [h]
    decide

/-- A word classified as one of the three system-register operations addresses a key
of the registry. -/
theorem sysreg_class_key_mem (msr : Registry) {w : Nat} (hw : w < 2 ^ 32) (rest : List Nat)
    (sz : Nat)
    (h : DecodeIntrinsic msr (bytes32 w ++ rest) sz = A64.MSR_REG ∨
      DecodeIntrinsic msr (bytes32 w ++ rest) sz = A64.MSR_IMM ∨
      DecodeIntrinsic msr (bytes32 w ++ rest) sz = A64.MRS) :
    insKey w ∈ msr.keys := by
  by_cases hsz : 4 ≤ sz
  · rw [DecodeIntrinsic_bytes32 msr hw rest hsz] at h
    rw [← find_isSome_iff]
    split_ifs at h with h1 h2 h3 h4 h5 h6
    · exact absurd h (by decide)
    · exact absurd h (by decide)
    · exact absurd h (by decide)
    · exact h4.2
    · exact h5.2
    · exact h6.2
    · exact absurd h (by decide)
  · have hlt : sz < 4 := by omega
    simp only [DecodeIntrinsic, hlt, if_true] at h
    exact absurd h (by decide)

/-! ## Claims -/

/-- ISB is returned exactly for the words matching the ISB mask (length at least 4). -/
theorem isb_iff (msr : Registry) {w : Nat} (hw : w < 2 ^ 32) (rest : List Nat) (sz : Nat) :
    DecodeIntrinsic msr (bytes32 w ++ rest) sz = A64.ISB ↔
      4 ≤ sz ∧ w &&& 0xFFFFF0FF = 0xD50330DF := by
  by_cases hsz : 4 ≤ sz
  · rw [DecodeIntrinsic_bytes32 msr hw rest hsz]
    constructor
    · intro h
      refine ⟨hsz, ?_⟩
      split_ifs at h with h1 <;> first | exact h1 | exact absurd h (by decide)
    · intro h
      rw [if_pos h.2]
  · have h : sz < 4 := by omega
    simp [DecodeIntrinsic, h, hsz]

/-- C1: on a buffer holding the 32-bit word `w`, `DecodeIntrinsic` returns ISB
exactly when the length is at least 4 and `w & 0xFFFFF0FF = 0xD50330DF`, whatever the
registry and whatever bits 11:8 of `w` are. -/
theorem C1_isb_iff_mask (msr : Registry) (w : Nat) (rest : List Nat) (sz : Nat)
    (hw : w < 2 ^ 32) :
    DecodeIntrinsic msr (bytes32 w ++ rest) sz = A64.ISB ↔
      4 ≤ sz ∧ w &&& 0xFFFFF0FF = 0xD50330DF :=
  isb_iff msr hw rest sz

theorem C1_isb_iff_mask_witness :
    DecodeIntrinsic [] (bytes32 0xD50330DF ++ []) 4 = A64.ISB ↔
      4 ≤ 4 ∧ 0xD50330DF &&& 0xFFFFF0FF = 0xD50330DF :=
  C1_isb_iff_mask [] 0xD50330DF [] 4 (by decide)

/-- WFI is returned exactly for the word `0xD503207F` (length at least 4). -/
theorem wfi_iff (msr : Registry) {w : Nat} (hw : w < 2 ^ 32) (rest : List Nat) (sz : Nat) :
    DecodeIntrinsic msr (bytes32 w ++ rest) sz = A64.WFI ↔ 4 ≤ sz ∧ w = 0xD503207F := by
  by_cases hsz : 4 ≤ sz
  · rw [DecodeIntrinsic_bytes32 msr hw rest hsz]
    constructor
    · intro h
      refine ⟨hsz, ?_⟩
      split_ifs at h with h1 h2 <;> first | exact h2 | exact absurd h (by decide)
    · rintro ⟨-, rfl⟩
      rw [if_neg (by decide), if_pos rfl]
  · have h : sz < 4 := by omega
    simp [DecodeIntrinsic, h, hsz]

/-- WFE is returned exactly for the word `0xD503205F` (length at least 4). -/
theorem wfe_iff (msr : Registry) {w : Nat} (hw : w < 2 ^ 32) (rest : List Nat) (sz : Nat) :
    DecodeIntrinsic msr (bytes32 w ++ rest) sz = A64.WFE ↔ 4 ≤ sz ∧ w = 0xD503205F := by
  by_cases hsz : 4 ≤ sz
  · rw [DecodeIntrinsic_bytes32 msr hw rest hsz]
    constructor
    · intro h
      refine ⟨hsz, ?_⟩
      split_ifs at h with h1 h2 h3 <;> first | exact h3 | exact absurd h (by decide)
    · rintro ⟨-, rfl⟩
      rw [if_neg (by decide), if_neg (by decide), if_pos rfl]
  · have h : sz < 4 := by omega
    simp [DecodeIntrinsic, h, hsz]

/-- Flipping one bit of a 32-bit word gives a 32-bit word. -/
theorem flip_lt {w i : Nat} (hw : w < 2 ^ 32) (hi : i < 32) : w ^^^ (1 <<< i) < 2 ^ 32 := by
  apply Nat.xor_lt_two_pow hw
  rw [Nat.shiftLeft_eq, Nat.one_mul]
  exact Nat.pow_lt_pow_right (by norm_num) hi

/-- Flipping a bit outside bits 11:8 of an ISB-matching word breaks the match. -/
theorem isb_flip {w i : Nat} (h : w &&& 0xFFFFF0FF = 0xD50330DF) (hi : i < 32)
    (hout : ¬ (8 ≤ i ∧ i ≤ 11)) : (w ^^^ (1 <<< i)) &&& 0xFFFFF0FF ≠ 0xD50330DF := by
  rw [Nat.and_xor_distrib_right, h]
  interval_cases i <;> first | decide | exact absurd ⟨by decide, by decide⟩ hout

/-- C2: `DecodeIntrinsic` returns WFI exactly for the word `0xD503207F` and WFE exactly
for `0xD503205F`; flipping any one of the 32 bits of either pattern gives a word that is
not classified as that instruction, and flipping any bit outside bits 11:8 of an
ISB-matching word gives a word that is not classified as ISB. -/
theorem C2_wfi_wfe_exact (msr : Registry) (w : Nat) (rest : List Nat) (sz : Nat)
    (hw : w < 2 ^ 32) :
    (DecodeIntrinsic msr (bytes32 w ++ rest) sz = A64.WFI ↔ 4 ≤ sz ∧ w = 0xD503207F) ∧
    (DecodeIntrinsic msr (bytes32 w ++ rest) sz = A64.WFE ↔ 4 ≤ sz ∧ w = 0xD503205F) ∧
    (∀ i, i < 32 →
      DecodeIntrinsic msr (bytes32 (0xD503207F ^^^ (1 <<< i)) ++ rest) sz ≠ A64.WFI) ∧
    (∀ i, i < 32 →
      DecodeIntrinsic msr (bytes32 (0xD503205F ^^^ (1 <<< i)) ++ rest) sz ≠ A64.WFE) ∧
    (w &&& 0xFFFFF0FF = 0xD50330DF → ∀ i, i < 32 → ¬ (8 ≤ i ∧ i ≤ 11) →
      DecodeIntrinsic msr (bytes32 (w ^^^ (1 <<< i)) ++ rest) sz ≠ A64.ISB) := by
  refine ⟨wfi_iff msr hw rest sz, wfe_iff msr hw rest sz, ?_, ?_, ?_⟩
  · intro i hi h
    have h1 := ((wfi_iff msr (flip_lt (by decide) hi) rest sz).1 h).2
    revert h1
    interval_cases i <;> decide
  · intro i hi h
    have h1 := ((wfe_iff msr (flip_lt (by decide) hi) rest sz).1 h).2
    revert h1
    interval_cases i <;> decide
  · intro hm i hi hout h
    exact isb_flip hm hi hout (((isb_iff msr (flip_lt hw hi) rest sz).1 h).2)

theorem C2_wfi_wfe_exact_witness :
    (0xD50330DF < 2 ^ 32 ∧ 0xD50330DF &&& 0xFFFFF0FF = 0xD50330DF ∧ 12 < 32 ∧
      ¬ (8 ≤ 12 ∧ 12 ≤ 11)) ∧
    DecodeIntrinsic [] (bytes32 (0xD50330DF ^^^ (1 <<< 12)) ++ []) 4 ≠ A64.ISB ∧
    (DecodeIntrinsic [] (bytes32 0xD503207F ++ []) 4 = A64.WFI ↔
      4 ≤ 4 ∧ 0xD503207F = 0xD503207F) ∧
    DecodeIntrinsic [] (bytes32 (0xD503207F ^^^ (1 <<< 5)) ++ []) 4 ≠ A64.WFI :=
  ⟨by decide,
    (C2_wfi_wfe_exact [] 0xD50330DF [] 4 (by decide)).2.2.2.2 (by decide) 12 (by decide)
      (by decide),
    (C2_wfi_wfe_exact [] 0xD503207F [] 4 (by decide)).1,
    (C2_wfi_wfe_exact [] 0xD503207F [] 4 (by decide)).2.2.1 5 (by decide)⟩

/-- C3: on a buffer of length at least 4 holding a word `w` whose top twelve bits are
`0xD51` (the MSR_REG class), `DecodeIntrinsic` returns MSR_REG when the key
`StatusReg (SrOp0 w) (SrOp1 w) (SrCn w) (SrCm w) (SrOp2 w)` is a key of the registry, and
returns NONE (0) when it is not: no later check classifies the word. -/
theorem C3_msr_reg_class (msr : Registry) (w : Nat) (rest : List Nat) (sz : Nat)
    (hw : w < 2 ^ 32) (hsz : 4 ≤ sz) (hcls : w >>> 20 = 0xD51) :
    (StatusReg (SrOp0 w) (SrOp1 w) (SrCn w) (SrCm w) (SrOp2 w) ∈ msr.keys →
      DecodeIntrinsic msr (bytes32 w ++ rest) sz = A64.MSR_REG) ∧
    (StatusReg (SrOp0 w) (SrOp1 w) (SrCn w) (SrCm w) (SrOp2 w) ∉ msr.keys →
      DecodeIntrinsic msr (bytes32 w ++ rest) sz = 0) := by
  obtain ⟨n1, n2, n3, n4⟩ := msr_reg_class_excl hcls
  rw [DecodeIntrinsic_bytes32 msr hw rest hsz, if_neg n1, if_neg n2, if_neg n3]
  constructor
  · intro hk
    rw [if_pos ⟨hcls, (find_isSome_iff msr _).2 hk⟩]
  · intro hk
    have hf : ¬ ((msr.find (insKey w)).isSome = true) := fun h => hk ((find_isSome_iff msr _).1 h)
    rw [if_neg (fun h => hf h.2), if_neg (fun h => hf h.2), if_neg (fun h => hf h.2)]

theorem C3_msr_reg_class_witness :
    (0xD51B4200 < 2 ^ 32 ∧ 4 ≤ 4 ∧ 0xD51B4200 >>> 20 = 0xD51 ∧
      StatusReg (SrOp0 0xD51B4200) (SrOp1 0xD51B4200) (SrCn 0xD51B4200) (SrCm 0xD51B4200)
        (SrOp2 0xD51B4200) ∈ Registry.keys [(0xDA10, "nzcv")] ∧
      StatusReg (SrOp0 0xD51B4200) (SrOp1 0xD51B4200) (SrCn 0xD51B4200) (SrCm 0xD51B4200)
        (SrOp2 0xD51B4200) ∉ Registry.keys [(0xC080, "sctlr_el1")]) ∧
    DecodeIntrinsic [(0xDA10, "nzcv")] (bytes32 0xD51B4200 ++ []) 4 = A64.MSR_REG ∧
    DecodeIntrinsic [(0xC080, "sctlr_el1")] (bytes32 0xD51B4200 ++ []) 4 = 0 :=
  ⟨⟨by decide, by decide, by decide, by decide, by decide⟩,
    (C3_msr_reg_class [(0xDA10, "nzcv")] 0xD51B4200 [] 4 (by decide) (by decide)
      (by decide)).1 (by decide),
    (C3_msr_reg_class [(0xC080, "sctlr_el1")] 0xD51B4200 [] 4 (by decide) (by decide)
      (by decide)).2 (by decide)⟩

/-- C4 (the code at the failing input): the word `0xD53B421F` (`mrs xzr, nzcv`) has top
twelve bits `0xD53`, register operand 31 and key `0xDA10`; with that key in the registry
`DecodeIntrinsic` returns MSR_IMM, not MRS, because the word also passes the MSR_IMM
test, whose mask equals its pattern and which comes first. -/
theorem C4_mrs_class_word_classified_msr_imm :
    0xD53B421F >>> 20 = 0xD53 ∧ SrXt 0xD53B421F = 31 ∧
    StatusReg (SrOp0 0xD53B421F) (SrOp1 0xD53B421F) (SrCn 0xD53B421F) (SrCm 0xD53B421F)
      (SrOp2 0xD53B421F) = 0xDA10 ∧
    0xDA10 ∈ Registry.keys [(0xDA10, "nzcv")] ∧
    DecodeIntrinsic [(0xDA10, "nzcv")] (bytes32 0xD53B421F) 4 = A64.MSR_IMM ∧
    DecodeIntrinsic [(0xDA10, "nzcv")] (bytes32 0xD53B421F) 4 ≠ A64.MRS := by
  decide

/-- The lowerer on a word classified as MRS. -/
theorem lower_mrs (msr : Registry) (base : BaseLifter) {w : Nat} (hw : w < 2 ^ 32)
    (rest : List Nat) (addr len : Nat) (il : LowLevelILFunction)
    (h : DecodeIntrinsic msr (bytes32 w ++ rest) len = A64.MRS) :
    GetInstructionLowLevelIL msr base (bytes32 w ++ rest) addr len il =
      ⟨true, 4, ⟨il.instrs ++ [ILInstruction.Intrinsic
        [RegisterOrFlag.Register (34 + w % 32)] A64.MRS
        [ILExpr.Register 4 (A64.MSR_BASE + insKey w)]]⟩⟩ := by
  have hk := insKey_lt w
  have e1 : u32 (34 + w % 32) = 34 + w % 32 := u32_of_lt (by omega)
  have e2 : u32 (A64.MSR_BASE + insKey w) = A64.MSR_BASE + insKey w :=
    u32_of_lt (by simp only [A64.MSR_BASE]; omega)
  unfold insKey at e2
  simp only [GetInstructionLowLevelIL, h, load32_bytes32 hw, SrXt_eq, e1, e2,
    LowLevelILFunction.AddInstruction]
  rfl

/-- The lowerer on a word classified as MSR_REG. -/
theorem lower_msr_reg (msr : Registry) (base : BaseLifter) {w : Nat} (hw : w < 2 ^ 32)
    (rest : List Nat) (addr len : Nat) (il : LowLevelILFunction)
    (h : DecodeIntrinsic msr (bytes32 w ++ rest) len = A64.MSR_REG) :
    GetInstructionLowLevelIL msr base (bytes32 w ++ rest) addr len il =
      ⟨true, 4, ⟨il.instrs ++ [ILInstruction.Intrinsic
        [RegisterOrFlag.Register (A64.MSR_BASE + insKey w)] A64.MSR_REG
        [ILExpr.Register 8 (34 + w % 32)]]⟩⟩ := by
  have hk := insKey_lt w
  have e1 : u32 (34 + w % 32) = 34 + w % 32 := u32_of_lt (by omega)
  have e2 : u32 (A64.MSR_BASE + insKey w) = A64.MSR_BASE + insKey w :=
    u32_of_lt (by simp only [A64.MSR_BASE]; omega)
  unfold insKey at e2
  simp only [GetInstructionLowLevelIL, h, load32_bytes32 hw, SrXt_eq, e1, e2,
    LowLevelILFunction.AddInstruction]
  rfl

/-- C5: for a word `w` that `DecodeIntrinsic` classifies as MRS, with `n` its bits 4:0
and `K` its system-register key, `GetInstructionLowLevelIL` appends exactly one
instruction, the MRS intrinsic with outputs `[register 34 + n]` and inputs `[4-byte read
of register MSR_BASE + K]`, leaves 4 in the length and returns success. -/
theorem C5_mrs_lowering (msr : Registry) (base : BaseLifter) (w : Nat) (rest : List Nat)
    (addr len : Nat) (il : LowLevelILFunction) (hw : w < 2 ^ 32)
    (h : DecodeIntrinsic msr (bytes32 w ++ rest) len = A64.MRS) :
    GetInstructionLowLevelIL msr base (bytes32 w ++ rest) addr len il =
      ⟨true, 4, ⟨il.instrs ++ [ILInstruction.Intrinsic
        [RegisterOrFlag.Register (34 + w % 32)] A64.MRS
        [ILExpr.Register 4 (A64.MSR_BASE +
          StatusReg (SrOp0 w) (SrOp1 w) (SrCn w) (SrCm w) (SrOp2 w))]]⟩⟩ :=
  lower_mrs msr base hw rest addr len il h

theorem C5_mrs_lowering_witness :
    (0xD53B4203 < 2 ^ 32 ∧
      DecodeIntrinsic [(0xDA10, "nzcv")] (bytes32 0xD53B4203 ++ []) 4 = A64.MRS) ∧
    GetInstructionLowLevelIL [(0xDA10, "nzcv")] (fun _ _ _ il => ⟨false, 0, il⟩)
        (bytes32 0xD53B4203 ++ []) 0x1000 4 ⟨[]⟩ =
      ⟨true, 4, ⟨[] ++ [ILInstruction.Intrinsic
        [RegisterOrFlag.Register (34 + 0xD53B4203 % 32)] A64.MRS
        [ILExpr.Register 4 (A64.MSR_BASE +
          StatusReg (SrOp0 0xD53B4203) (SrOp1 0xD53B4203) (SrCn 0xD53B4203)
            (SrCm 0xD53B4203) (SrOp2 0xD53B4203))]]⟩⟩ :=
  ⟨⟨by decide, by decide⟩,
    C5_mrs_lowering [(0xDA10, "nzcv")] (fun _ _ _ il => ⟨false, 0, il⟩) 0xD53B4203 []
      0x1000 4 ⟨[]⟩ (by decide) (by decide)⟩

/-- C6: for a word `w` that `DecodeIntrinsic` classifies as MSR_REG, with `n` its bits
4:0 and `K` its system-register key, `GetInstructionLowLevelIL` appends exactly one
instruction, the MSR_REG intrinsic with outputs `[register MSR_BASE + K]` and inputs
`[8-byte read of register 34 + n]`, leaves 4 in the length and returns success. -/
theorem C6_msr_reg_lowering (msr : Registry) (base : BaseLifter) (w : Nat)
    (rest : List Nat) (addr len : Nat) (il : LowLevelILFunction) (hw : w < 2 ^ 32)
    (h : DecodeIntrinsic msr (bytes32 w ++ rest) len = A64.MSR_REG) :
    GetInstructionLowLevelIL msr base (bytes32 w ++ rest) addr len il =
      ⟨true, 4, ⟨il.instrs ++ [ILInstruction.Intrinsic
        [RegisterOrFlag.Register (A64.MSR_BASE +
          StatusReg (SrOp0 w) (SrOp1 w) (SrCn w) (SrCm w) (SrOp2 w))] A64.MSR_REG
        [ILExpr.Register 8 (34 + w % 32)]]⟩⟩ :=
  lower_msr_reg msr base hw rest addr len il h

theorem C6_msr_reg_lowering_witness :
    (0xD51B4203 < 2 ^ 32 ∧
      DecodeIntrinsic [(0xDA10, "nzcv")] (bytes32 0xD51B4203 ++ []) 4 = A64.MSR_REG) ∧
    GetInstructionLowLevelIL [(0xDA10, "nzcv")] (fun _ _ _ il => ⟨false, 0, il⟩)
        (bytes32 0xD51B4203 ++ []) 0x1000 4 ⟨[]⟩ =
      ⟨true, 4, ⟨[] ++ [ILInstruction.Intrinsic
        [RegisterOrFlag.Register (A64.MSR_BASE +
          StatusReg (SrOp0 0xD51B4203) (SrOp1 0xD51B4203) (SrCn 0xD51B4203)
            (SrCm 0xD51B4203) (SrOp2 0xD51B4203))] A64.MSR_REG
        [ILExpr.Register 8 (34 + 0xD51B4203 % 32)]]⟩⟩ :=
  ⟨⟨by decide, by decide⟩,
    C6_msr_reg_lowering [(0xDA10, "nzcv")] (fun _ _ _ il => ⟨false, 0, il⟩) 0xD51B4203 []
      0x1000 4 ⟨[]⟩ (by decide) (by decide)⟩

/-- C7 (the code at the failing input): the word `0xD50340DF` (`msr daifset, #0`) with
its key `0x9A06` in the registry is classified as MSR_IMM, not NONE, yet
`GetInstructionLowLevelIL` has no case for MSR_IMM: with a base decoder that fails and
reports length 0 the result is that failure, length 0 and no instruction added. -/
theorem C7_msr_imm_not_emitted :
    DecodeIntrinsic [(0x9A06, "daifset")] (bytes32 0xD50340DF) 4 = A64.MSR_IMM ∧
    DecodeIntrinsic [(0x9A06, "daifset")] (bytes32 0xD50340DF) 4 ≠ 0 ∧
    GetInstructionLowLevelIL [(0x9A06, "daifset")] (fun _ _ _ il => ⟨false, 0, il⟩)
      (bytes32 0xD50340DF) 0x1000 4 ⟨[]⟩ = ⟨false, 0, ⟨[]⟩⟩ := by
  decide

/-- C8 (what the code does): for every word that `DecodeIntrinsic` classifies as
MSR_IMM, `GetInstructionLowLevelIL` emits no MSR_IMM operation of its own; its result is
exactly the base decoder's result on the same arguments. -/
theorem C8_msr_imm_delegated (msr : Registry) (base : BaseLifter) (data : List Nat)
    (addr len : Nat) (il : LowLevelILFunction)
    (h : DecodeIntrinsic msr data len = A64.MSR_IMM) :
    GetInstructionLowLevelIL msr base data addr len il = base data addr len il := by
  simp [GetInstructionLowLevelIL, h]

theorem C8_msr_imm_delegated_witness :
    DecodeIntrinsic [(0x9A06, "daifset")] (bytes32 0xD50340DF) 4 = A64.MSR_IMM ∧
    GetInstructionLowLevelIL [(0x9A06, "daifset")] (fun _ _ _ il => ⟨false, 0, il⟩)
      (bytes32 0xD50340DF) 0x1000 4 ⟨[]⟩ = ⟨false, 0, ⟨[]⟩⟩ :=
  ⟨by decide,
    C8_msr_imm_delegated [(0x9A06, "daifset")] (fun _ _ _ il => ⟨false, 0, il⟩)
      (bytes32 0xD50340DF) 0x1000 4 ⟨[]⟩ (by decide)⟩

/-- C9: no dangling system-register operand. If `DecodeIntrinsic` returns MSR_REG,
MSR_IMM or MRS for a word, the key computed from the word's fields is a key of the
registry; and in the two cases where `GetInstructionLowLevelIL` forms a virtual
register id `MSR_BASE + K` (the output of MSR_REG, the input of MRS), that id is one of
the ids `GetAllRegisters` appends to the base register list. -/
theorem C9_no_dangling_sysreg (msr : Registry) (base : BaseLifter) (baseRegs : List Nat)
    (w : Nat) (rest : List Nat) (addr len : Nat) (il : LowLevelILFunction)
    (hw : w < 2 ^ 32) :
    (DecodeIntrinsic msr (bytes32 w ++ rest) len = A64.MSR_REG ∨
      DecodeIntrinsic msr (bytes32 w ++ rest) len = A64.MSR_IMM ∨
      DecodeIntrinsic msr (bytes32 w ++ rest) len = A64.MRS →
        StatusReg (SrOp0 w) (SrOp1 w) (SrCn w) (SrCm w) (SrOp2 w) ∈ msr.keys) ∧
    (DecodeIntrinsic msr (bytes32 w ++ rest) len = A64.MSR_REG →
      ∃ r, GetInstructionLowLevelIL msr base (bytes32 w ++ rest) addr len il =
          ⟨true, 4, ⟨il.instrs ++ [ILInstruction.Intrinsic [RegisterOrFlag.Register r]
            A64.MSR_REG [ILExpr.Register 8 (34 + w % 32)]]⟩⟩ ∧
        r = A64.MSR_BASE + StatusReg (SrOp0 w) (SrOp1 w) (SrCn w) (SrCm w) (SrOp2 w) ∧
        r ∈ (GetAllRegisters msr baseRegs).drop baseRegs.length) ∧
    (DecodeIntrinsic msr (bytes32 w ++ rest) len = A64.MRS →
      ∃ r, GetInstructionLowLevelIL msr base (bytes32 w ++ rest) addr len il =
          ⟨true, 4, ⟨il.instrs ++ [ILInstruction.Intrinsic
            [RegisterOrFlag.Register (34 + w % 32)] A64.MRS [ILExpr.Register 4 r]]⟩⟩ ∧
        r = A64.MSR_BASE + StatusReg (SrOp0 w) (SrOp1 w) (SrCn w) (SrCm w) (SrOp2 w) ∧
        r ∈ (GetAllRegisters msr baseRegs).drop baseRegs.length) := by
  have hlt : u32 (A64.MSR_BASE + insKey w) = A64.MSR_BASE + insKey w := by
    have hk := insKey_lt w
    exact u32_of_lt (by simp only [A64.MSR_BASE]; omega)
  refine ⟨sysreg_class_key_mem msr hw rest len, ?_, ?_⟩
  · intro h
    refine ⟨A64.MSR_BASE + insKey w, lower_msr_reg msr base hw rest addr len il h, rfl, ?_⟩
    rw [← hlt]
    exact mem_synthesized (sysreg_class_key_mem msr hw rest len (Or.inl h)) baseRegs
  · intro h
    refine ⟨A64.MSR_BASE + insKey w, lower_mrs msr base hw rest addr len il h, rfl, ?_⟩
    rw [← hlt]
    exact mem_synthesized (sysreg_class_key_mem msr hw rest len (Or.inr (Or.inr h))) baseRegs

theorem C9_no_dangling_sysreg_witness :
    (0xD53B4203 < 2 ^ 32 ∧
      DecodeIntrinsic [(0xDA10, "nzcv")] (bytes32 0xD53B4203 ++ []) 4 = A64.MRS) ∧
    StatusReg (SrOp0 0xD53B4203) (SrOp1 0xD53B4203) (SrCn 0xD53B4203) (SrCm 0xD53B4203)
      (SrOp2 0xD53B4203) ∈ Registry.keys [(0xDA10, "nzcv")] ∧
    ∃ r, GetInstructionLowLevelIL [(0xDA10, "nzcv")] (fun _ _ _ il => ⟨false, 0, il⟩)
          (bytes32 0xD53B4203 ++ []) 0x1000 4 ⟨[]⟩ =
        ⟨true, 4, ⟨[] ++ [ILInstruction.Intrinsic
          [RegisterOrFlag.Register (34 + 0xD53B4203 % 32)] A64.MRS [ILExpr.Register 4 r]]⟩⟩ ∧
      r = A64.MSR_BASE + StatusReg (SrOp0 0xD53B4203) (SrOp1 0xD53B4203) (SrCn 0xD53B4203)
        (SrCm 0xD53B4203) (SrOp2 0xD53B4203) ∧
      r ∈ (GetAllRegisters [(0xDA10, "nzcv")] [0, 1, 2]).drop [0, 1, 2].length :=
  ⟨⟨by decide, by decide⟩,
    (C9_no_dangling_sysreg [(0xDA10, "nzcv")] (fun _ _ _ il => ⟨false, 0, il⟩) [0, 1, 2]
      0xD53B4203 [] 0x1000 4 ⟨[]⟩ (by decide)).1 (Or.inr (Or.inr (by decide))),
    (C9_no_dangling_sysreg [(0xDA10, "nzcv")] (fun _ _ _ il => ⟨false, 0, il⟩) [0, 1, 2]
      0xD53B4203 [] 0x1000 4 ⟨[]⟩ (by decide)).2.2 (by decide)⟩

/-- C10: `StatusReg` is a bijection between the field tuples within their bit-widths and
the keys below `2 ^ 16`. For `op0 < 4`, `op1 < 8`, `CRn < 16`, `CRm < 16`, `op2 < 8` the
key is `op0<<14 | op1<<11 | CRn<<7 | CRm<<3 | op2`, it is below `2 ^ 16`, the five fields
are recovered from it by shifting and masking, and another in-range tuple has the same
key exactly when it is the same tuple; every key below `2 ^ 16` is the key of the fields
decoded from it. -/
theorem C10_StatusReg_bijection (o0 o1 Cn Cm o2 : Nat) (h0 : o0 < 4) (h1 : o1 < 8)
    (hn : Cn < 16) (hm : Cm < 16) (h2 : o2 < 8) :
    StatusReg o0 o1 Cn Cm o2 = (o0 <<< 14 ||| o1 <<< 11 ||| Cn <<< 7 ||| Cm <<< 3 ||| o2) ∧
    StatusReg o0 o1 Cn Cm o2 < 2 ^ 16 ∧
    o0 = StatusReg o0 o1 Cn Cm o2 >>> 14 ∧
    o1 = (StatusReg o0 o1 Cn Cm o2 >>> 11) &&& 7 ∧
    Cn = (StatusReg o0 o1 Cn Cm o2 >>> 7) &&& 15 ∧
    Cm = (StatusReg o0 o1 Cn Cm o2 >>> 3) &&& 15 ∧
    o2 = StatusReg o0 o1 Cn Cm o2 &&& 7 ∧
    (∀ p0 p1 Pn Pm p2 : Nat, p0 < 4 → p1 < 8 → Pn < 16 → Pm < 16 → p2 < 8 →
      (StatusReg p0 p1 Pn Pm p2 = StatusReg o0 o1 Cn Cm o2 ↔
        (p0, p1, Pn, Pm, p2) = (o0, o1, Cn, Cm, o2))) ∧
    (∀ k : Nat, k < 2 ^ 16 →
      StatusReg (k >>> 14) ((k >>> 11) &&& 7) ((k >>> 7) &&& 15) ((k >>> 3) &&& 15) (k &&& 7)
        = k) := by
  have hk := StatusReg_eq_add h0 h1 hn hm h2
  have m7 : ∀ x : Nat, x &&& 7 = x % 8 := fun x => Nat.and_pow_two_sub_one_eq_mod x 3
  have m15 : ∀ x : Nat, x &&& 15 = x % 16 := fun x => Nat.and_pow_two_sub_one_eq_mod x 4
  refine ⟨?_, ?_, ?_, ?_, ?_, ?_, ?_, ?_, ?_⟩
  · rw [hk]
    exact (pack_eq_add h1 hn hm h2).symm
  · omega
  · rw [Nat.shiftRight_eq_div_pow]
    omega
  · rw [m7, Nat.shiftRight_eq_div_pow]
    omega
  · rw [m15, Nat.shiftRight_eq_div_pow]
    omega
  · rw [m15, Nat.shiftRight_eq_div_pow]
    omega
  · rw [m7]
    omega
  · intro p0 p1 Pn Pm p2 g0 g1 gn gm g2
    rw [hk, StatusReg_eq_add g0 g1 gn gm g2]
    simp only [Prod.mk.injEq]
    omega
  · intro k hk16
    simp only [m7, m15, Nat.shiftRight_eq_div_pow]
    rw [StatusReg_eq_add (by omega) (by omega) (by omega) (by omega) (by omega)]
    omega

theorem C10_StatusReg_bijection_witness :
    (3 < 4 ∧ 3 < 8 ∧ 4 < 16 ∧ 2 < 16 ∧ 1 < 8) ∧
    StatusReg 3 3 4 2 1 = 0xDA11 ∧
    3 = StatusReg 3 3 4 2 1 >>> 14 ∧
    3 = (StatusReg 3 3 4 2 1 >>> 11) &&& 7 ∧
    4 = (StatusReg 3 3 4 2 1 >>> 7) &&& 15 ∧
    2 = (StatusReg 3 3 4 2 1 >>> 3) &&& 15 ∧
    1 = StatusReg 3 3 4 2 1 &&& 7 :=
  ⟨by decide, by decide,
    (C10_StatusReg_bijection 3 3 4 2 1 (by decide) (by decide) (by decide) (by decide)
      (by decide)).2.2.1,
    (C10_StatusReg_bijection 3 3 4 2 1 (by decide) (by decide) (by decide) (by decide)
      (by decide)).2.2.2.1,
    (C10_StatusReg_bijection 3 3 4 2 1 (by decide) (by decide) (by decide) (by decide)
      (by decide)).2.2.2.2.1,
    (C10_StatusReg_bijection 3 3 4 2 1 (by decide) (by decide) (by decide) (by decide)
      (by decide)).2.2.2.2.2.1,
    (C10_StatusReg_bijection 3 3 4 2 1 (by decide) (by decide) (by decide) (by decide)
      (by decide)).2.2.2.2.2.2.1⟩

/-! ## The virtual register space and the catalog -/

/-- In a registry with unique keys, the lookup of an entry's key finds that entry. -/
theorem find_of_mem {msr : Registry} (hnd : msr.keys.Nodup) {k : Nat} {v : String}
    (h : (k, v) ∈ msr) : msr.find k = some v := by
  induction msr with
  | nil => simp at h
  | cons e t ih =>
    obtain ⟨k0, v0⟩ := e
    simp only [Registry.keys, List.map_cons, List.nodup_cons, List.mem_map, not_exists,
      not_and] at hnd
    simp only [List.mem_cons, Prod.mk.injEq] at h
    rcases h with ⟨hk, hv⟩ | ht
    · subst hk hv
      simp [Registry.find, List.lookup]
    · have hne : k ≠ k0 := fun hk => hnd.1 (k, v) ht (by simp [hk])
      have hb : (k == k0) = false := by simpa using hne
      simp only [Registry.find, List.lookup, hb]
      exact ih hnd.2 ht

/-- Subtracting `MSR_BASE` from a synthesized id gives the key back. -/
theorem sub32_synth {k : Nat} (hk : k < 2 ^ 32) :
    sub32 (u32 (A64.MSR_BASE + k)) A64.MSR_BASE = k := by
  simp only [sub32, u32, A64.MSR_BASE]
  omega

/-- The map from a key to its synthesized id is injective on 32-bit keys. -/
theorem synth_inj {a b : Nat} (ha : a < 2 ^ 32) (hb : b < 2 ^ 32)
    (h : u32 (A64.MSR_BASE + a) = u32 (A64.MSR_BASE + b)) : a = b := by
  simp only [u32, A64.MSR_BASE] at h
  omega

/-- A lookup on the registry as loaded finds the stored name as a non-null pointer. -/
theorem find_state (msr : Registry) (key : Nat) :
    MapState.find msr.state key = (msr.find key).map some := by
  induction msr with
  | nil => rfl
  | cons e t ih =>
    obtain ⟨k, v⟩ := e
    simp only [MapState.find, Registry.state, Registry.find, List.map_cons] at ih ⊢
    by_cases hk : key = k
    · subst hk
      simp [List.lookup]
    · have hb : (key == k) = false := by simpa using hk
      simp only [List.lookup, hb]
      exact ih

/-- A hit of the lookup makes `GetRegisterName` return the stored name and leave the map
alone. -/
theorem GetRegisterName_hit (msr : Registry) (baseName : Nat → String) (reg : Nat)
    {v : String} (h : msr.find (sub32 reg A64.MSR_BASE) = some v) :
    GetRegisterName msr baseName reg = (v, msr.state) := by
  have hf : MapState.find msr.state (sub32 reg A64.MSR_BASE) = some (some v) := by
    rw [find_state, h]
    rfl
  simp [GetRegisterName, Stateful.GetRegisterName, Stateful.StatusRegName, MapState.index, hf,
    toStdString]

/-- A miss of the lookup makes `GetRegisterName` return the base's name and leave the
map alone. -/
theorem GetRegisterName_miss (msr : Registry) (baseName : Nat → String) (reg : Nat)
    (h : sub32 reg A64.MSR_BASE ∉ msr.keys) :
    GetRegisterName msr baseName reg = (baseName reg, msr.state) := by
  have hf := (find_isSome_false_iff msr _).2 h
  have hn : msr.find (sub32 reg A64.MSR_BASE) = none := by
    cases h1 : msr.find (sub32 reg A64.MSR_BASE) with
    | none => rfl
    | some v => simp [h1] at hf
  have hs : MapState.find msr.state (sub32 reg A64.MSR_BASE) = none := by
    rw [find_state, hn]
    rfl
  simp [GetRegisterName, Stateful.GetRegisterName, hs]

/-- A miss of the lookup makes `GetRegisterInfo` return the base's record. -/
theorem GetRegisterInfo_miss (msr : Registry) (baseInfo : Nat → BNRegisterInfo) (reg : Nat)
    (h : sub32 reg A64.MSR_BASE ∉ msr.keys) :
    GetRegisterInfo msr baseInfo reg = baseInfo reg := by
  have hf := (find_isSome_false_iff msr _).2 h
  simp [GetRegisterInfo, hf]

/-- C11: for every length `sz < 4`, every buffer and every registry, `DecodeIntrinsic`
returns NONE (0) whatever the buffer holds, and `GetInstructionLowLevelIL` returns
exactly what the base decoder returns for the same data, address, length and function
(same status, same length, same instructions). -/
theorem C11_short_buffer (msr : Registry) (base : BaseLifter) (data : List Nat)
    (addr sz : Nat) (il : LowLevelILFunction) (h : sz < 4) :
    DecodeIntrinsic msr data sz = 0 ∧
    GetInstructionLowLevelIL msr base data addr sz il = base data addr sz il := by
  have hd : DecodeIntrinsic msr data sz = 0 := by simp [DecodeIntrinsic, h]
  refine ⟨hd, ?_⟩
  simp [GetInstructionLowLevelIL, hd]

theorem C11_short_buffer_witness :
    3 < 4 ∧ DecodeIntrinsic [(0xDA10, "nzcv")] [0xDF, 0x30, 0x03] 3 = 0 ∧
    GetInstructionLowLevelIL [(0xDA10, "nzcv")]
        (fun _ _ len il => ⟨false, len, il.AddInstruction (ILInstruction.BaseLifted 7)⟩)
        [0xDF, 0x30, 0x03] 0x1000 3 ⟨[]⟩ =
      ⟨false, 3, ⟨[ILInstruction.BaseLifted 7]⟩⟩ :=
  ⟨by decide, C11_short_buffer [(0xDA10, "nzcv")]
    (fun _ _ len il => ⟨false, len, il.AddInstruction (ILInstruction.BaseLifted 7)⟩)
    [0xDF, 0x30, 0x03] 0x1000 3 ⟨[]⟩ (by decide)⟩

/-- C12: for every registry with unique 32-bit keys and every entry of it, the id
`MSR_BASE + key` (32-bit arithmetic) is one of the ids `GetAllRegisters` appends,
`GetRegisterName` of that id is the entry's stored name whatever the base
architecture's naming, and `GetRegisterInfo` of that id is the record with
`fullWidthRegister = id`, `offset = 0`, `size = 4`, `extend = NoExtend`; and every id
that `GetAllRegisters` appends is the id of an entry. -/
theorem C12_enumerated_ids_resolve (msr : Registry) (baseRegs : List Nat)
    (baseName : Nat → String) (baseInfo : Nat → BNRegisterInfo)
    (h32 : ∀ k ∈ msr.keys, k < 2 ^ 32) (hnd : msr.keys.Nodup) :
    (∀ e ∈ msr,
      u32 (A64.MSR_BASE + e.1) ∈ (GetAllRegisters msr baseRegs).drop baseRegs.length ∧
      (GetRegisterName msr baseName (u32 (A64.MSR_BASE + e.1))).1 = e.2 ∧
      GetRegisterInfo msr baseInfo (u32 (A64.MSR_BASE + e.1)) =
        ⟨u32 (A64.MSR_BASE + e.1), 0, 4, ImplicitRegisterExtend.NoExtend⟩) ∧
    (∀ id ∈ (GetAllRegisters msr baseRegs).drop baseRegs.length,
      ∃ e ∈ msr, id = u32 (A64.MSR_BASE + e.1)) := by
  constructor
  · rintro ⟨k, v⟩ he
    have hk : k ∈ msr.keys := List.mem_map.2 ⟨(k, v), he, rfl⟩
    have hfind := find_of_mem hnd he
    have hsub := sub32_synth (h32 k hk)
    refine ⟨mem_synthesized hk baseRegs, ?_, ?_⟩
    · rw [GetRegisterName_hit msr baseName _ (by rw [hsub]; exact hfind)]
    · simp [GetRegisterInfo, hsub, hfind]
  · intro id hid
    simp only [GetAllRegisters, List.drop_left, List.mem_map] at hid
    obtain ⟨e, he, rfl⟩ := hid
    exact ⟨e, he, rfl⟩

theorem C12_enumerated_ids_resolve_witness :
    ((∀ k ∈ Registry.keys [(0xC080, "sctlr_el1"), (0xDA10, "nzcv")], k < 2 ^ 32) ∧
      (Registry.keys [(0xC080, "sctlr_el1"), (0xDA10, "nzcv")]).Nodup) ∧
    (GetRegisterName [(0xC080, "sctlr_el1"), (0xDA10, "nzcv")] (fun _ => "x0")
      (u32 (A64.MSR_BASE + 0xDA10))).1 = "nzcv" ∧
    GetRegisterInfo [(0xC080, "sctlr_el1"), (0xDA10, "nzcv")]
        (fun r => ⟨r, 0, 8, ImplicitRegisterExtend.NoExtend⟩) (u32 (A64.MSR_BASE + 0xDA10)) =
      ⟨u32 (A64.MSR_BASE + 0xDA10), 0, 4, ImplicitRegisterExtend.NoExtend⟩ :=
  ⟨⟨by decide, by decide⟩,
    ((C12_enumerated_ids_resolve [(0xC080, "sctlr_el1"), (0xDA10, "nzcv")] [0, 1]
      (fun _ => "x0") (fun r => ⟨r, 0, 8, ImplicitRegisterExtend.NoExtend⟩)
      (by decide) (by decide)).1 (0xDA10, "nzcv") (by decide)).2⟩

/-- C13: ordinary register ids are forwarded unchanged. For a registry whose keys are all
at most `0xFFFF` and a register id below `MSR_BASE`, the 32-bit difference
`id - MSR_BASE` wraps to a value that is no key of the registry; and for every id whose
32-bit difference `id - MSR_BASE` is no key of the registry, `GetRegisterName` and
`GetRegisterInfo` return exactly the base architecture's answer for that id. -/
theorem C13_ordinary_ids_forwarded (msr : Registry) (baseName : Nat → String)
    (baseInfo : Nat → BNRegisterInfo) (reg : Nat) :
    ((∀ k ∈ msr.keys, k ≤ 0xFFFF) → reg < A64.MSR_BASE →
      sub32 reg A64.MSR_BASE ∉ msr.keys ∧
      (GetRegisterName msr baseName reg).1 = baseName reg ∧
      GetRegisterInfo msr baseInfo reg = baseInfo reg) ∧
    (sub32 reg A64.MSR_BASE ∉ msr.keys →
      (GetRegisterName msr baseName reg).1 = baseName reg ∧
      GetRegisterInfo msr baseInfo reg = baseInfo reg) := by
  have gen : sub32 reg A64.MSR_BASE ∉ msr.keys →
      (GetRegisterName msr baseName reg).1 = baseName reg ∧
      GetRegisterInfo msr baseInfo reg = baseInfo reg := by
    intro h
    rw [GetRegisterName_miss msr baseName reg h, GetRegisterInfo_miss msr baseInfo reg h]
    exact ⟨rfl, rfl⟩
  refine ⟨?_, gen⟩
  intro hkeys hreg
  have habs : sub32 reg A64.MSR_BASE ∉ msr.keys := by
    intro hmem
    have hle := hkeys _ hmem
    simp only [sub32, u32, A64.MSR_BASE] at hle hreg
    omega
  exact ⟨habs, gen habs⟩

theorem C13_ordinary_ids_forwarded_witness :
    ((∀ k ∈ Registry.keys [(0xC080, "sctlr_el1")], k ≤ 0xFFFF) ∧ 34 < A64.MSR_BASE) ∧
    sub32 34 A64.MSR_BASE ∉ Registry.keys [(0xC080, "sctlr_el1")] ∧
    (GetRegisterName [(0xC080, "sctlr_el1")] (fun _ => "x0") 34).1 = "x0" ∧
    GetRegisterInfo [(0xC080, "sctlr_el1")]
        (fun r => ⟨r, 0, 8, ImplicitRegisterExtend.NoExtend⟩) 34 =
      ⟨34, 0, 8, ImplicitRegisterExtend.NoExtend⟩ :=
  ⟨⟨by decide, by decide⟩,
    (C13_ordinary_ids_forwarded [(0xC080, "sctlr_el1")] (fun _ => "x0")
      (fun r => ⟨r, 0, 8, ImplicitRegisterExtend.NoExtend⟩) 34).1 (by decide) (by decide)⟩

/-- C14: the operation catalog. `GetIntrinsicName` gives `__isb`, `__wfi`, `__wfe`,
`_WriteStatusReg` (for MSR_IMM and for MSR_REG) and `_ReadStatusReg`;
`GetIntrinsicInputs` gives no input for ISB, WFI and WFE, one 4-byte unsigned integer for
MSR_IMM, one 8-byte unsigned integer for MSR_REG and one 4-byte unsigned integer for MRS;
`GetIntrinsicOutputs` gives no output for ISB, WFI and WFE, one 4-byte unsigned integer
for MSR_IMM and for MSR_REG and one 8-byte unsigned integer for MRS; for every other id
the three queries return the base architecture's answer. -/
theorem C14_operation_catalog (baseName : Nat → String) (baseInputs : Nat → List NameAndType)
    (baseOutputs : Nat → List BNType) :
    (GetIntrinsicName baseName A64.ISB = "__isb" ∧
      GetIntrinsicName baseName A64.WFI = "__wfi" ∧
      GetIntrinsicName baseName A64.WFE = "__wfe" ∧
      GetIntrinsicName baseName A64.MSR_IMM = "_WriteStatusReg" ∧
      GetIntrinsicName baseName A64.MSR_REG = "_WriteStatusReg" ∧
      GetIntrinsicName baseName A64.MRS = "_ReadStatusReg") ∧
    (GetIntrinsicInputs baseInputs A64.ISB = [] ∧
      GetIntrinsicInputs baseInputs A64.WFI = [] ∧
      GetIntrinsicInputs baseInputs A64.WFE = [] ∧
      GetIntrinsicInputs baseInputs A64.MSR_IMM = [⟨"", BNType.IntegerType 4 false⟩] ∧
      GetIntrinsicInputs baseInputs A64.MSR_REG = [⟨"", BNType.IntegerType 8 false⟩] ∧
      GetIntrinsicInputs baseInputs A64.MRS = [⟨"", BNType.IntegerType 4 false⟩]) ∧
    (GetIntrinsicOutputs baseOutputs A64.ISB = [] ∧
      GetIntrinsicOutputs baseOutputs A64.WFI = [] ∧
      GetIntrinsicOutputs baseOutputs A64.WFE = [] ∧
      GetIntrinsicOutputs baseOutputs A64.MSR_IMM = [BNType.IntegerType 4 false] ∧
      GetIntrinsicOutputs baseOutputs A64.MSR_REG = [BNType.IntegerType 4 false] ∧
      GetIntrinsicOutputs baseOutputs A64.MRS = [BNType.IntegerType 8 false]) ∧
    (∀ id : Nat, id ≠ A64.ISB → id ≠ A64.WFI → id ≠ A64.WFE → id ≠ A64.MSR_IMM →
      id ≠ A64.MSR_REG → id ≠ A64.MRS →
      GetIntrinsicName baseName id = baseName id ∧
      GetIntrinsicInputs baseInputs id = baseInputs id ∧
      GetIntrinsicOutputs baseOutputs id = baseOutputs id) := by
  refine ⟨⟨rfl, rfl, rfl, rfl, rfl, rfl⟩, ⟨rfl, rfl, rfl, rfl, rfl, rfl⟩,
    ⟨rfl, rfl, rfl, rfl, rfl, rfl⟩, ?_⟩
  intro id h1 h2 h3 h4 h5 h6
  simp [GetIntrinsicName, GetIntrinsicInputs, GetIntrinsicOutputs, h1, h2, h3, h4, h5, h6]

theorem C14_operation_catalog_witness :
    GetIntrinsicName (fun _ => "base") 7 = "base" ∧
    GetIntrinsicInputs (fun _ => [⟨"a", BNType.Other 1⟩]) 7 = [⟨"a", BNType.Other 1⟩] ∧
    GetIntrinsicOutputs (fun _ => [BNType.Other 2]) 7 = [BNType.Other 2] :=
  (C14_operation_catalog (fun _ => "base") (fun _ => [⟨"a", BNType.Other 1⟩])
    (fun _ => [BNType.Other 2])).2.2.2 7 (by decide) (by decide) (by decide) (by decide)
    (by decide) (by decide)

/-- C15: for a buffer that `DecodeIntrinsic` classifies as ISB, WFI or WFE,
`GetInstructionLowLevelIL` appends exactly one instruction, the intrinsic whose id is the
classification and whose output and input lists are empty, leaves 4 in the length and
returns success, whatever the incoming length and the base decoder. -/
theorem C15_barrier_lowering (msr : Registry) (base : BaseLifter) (data : List Nat)
    (addr len : Nat) (il : LowLevelILFunction)
    (h : DecodeIntrinsic msr data len = A64.ISB ∨ DecodeIntrinsic msr data len = A64.WFI ∨
      DecodeIntrinsic msr data len = A64.WFE) :
    GetInstructionLowLevelIL msr base data addr len il =
      ⟨true, 4, ⟨il.instrs ++
        [ILInstruction.Intrinsic [] (DecodeIntrinsic msr data len) []]⟩⟩ := by
  rcases h with h | h | h <;>
    simp [GetInstructionLowLevelIL, h, LowLevelILFunction.AddInstruction]

theorem C15_barrier_lowering_witness :
    DecodeIntrinsic [] (bytes32 0xD503207F) 9 = A64.WFI ∧
    GetInstructionLowLevelIL [] (fun _ _ _ il => ⟨false, 0, il⟩) (bytes32 0xD503207F)
        0x1000 9 ⟨[ILInstruction.BaseLifted 1]⟩ =
      ⟨true, 4, ⟨[ILInstruction.BaseLifted 1] ++
        [ILInstruction.Intrinsic [] (DecodeIntrinsic [] (bytes32 0xD503207F) 9) []]⟩⟩ :=
  ⟨by decide,
    C15_barrier_lowering [] (fun _ _ _ il => ⟨false, 0, il⟩) (bytes32 0xD503207F) 0x1000 9
      ⟨[ILInstruction.BaseLifted 1]⟩ (Or.inr (Or.inl (by decide)))⟩

/-- An MRS-class word that fails the MSR_IMM test and addresses a key of the registry
is classified as MRS. -/
theorem mrs_of_class (msr : Registry) {w : Nat} (hw : w < 2 ^ 32) (rest : List Nat)
    {sz : Nat} (hsz : 4 ≤ sz) (hcls : w >>> 20 = 0b110101010011)
    (himm : ¬ (w &&& 0b11010101000000000100000000011111 = 0b11010101000000000100000000011111))
    (hkey : insKey w ∈ msr.keys) :
    DecodeIntrinsic msr (bytes32 w ++ rest) sz = A64.MRS := by
  obtain ⟨n1, n2, n3, n4⟩ := mrs_class_excl hcls
  rw [DecodeIntrinsic_bytes32 msr hw rest hsz, if_neg n1, if_neg n2, if_neg n3,
    if_neg (fun h => n4 h.1), if_neg (fun h => himm h.1),
    if_pos ⟨hcls, (find_isSome_iff msr _).2 hkey⟩]

/-- C16 (counterexample): the fields of the word `0xD5380320` are `(3, 0, 0, 3, 1)`, not
SCTLR_EL1's `(3, 0, 1, 0, 0)`; with a registry holding only SCTLR_EL1's key
`StatusReg 3 0 1 0 0` the word is classified NONE, not MRS, and the lowerer returns the
base decoder's result. -/
theorem C16_example_word_is_not_sctlr_el1 :
    (SrOp0 0xD5380320, SrOp1 0xD5380320, SrCn 0xD5380320, SrCm 0xD5380320, SrOp2 0xD5380320)
      ≠ (3, 0, 1, 0, 0) ∧
    DecodeIntrinsic [(StatusReg 3 0 1 0 0, "sctlr_el1")] (bytes32 0xD5380320) 4 ≠ A64.MRS ∧
    DecodeIntrinsic [(StatusReg 3 0 1 0 0, "sctlr_el1")] (bytes32 0xD5380320) 4 = 0 ∧
    GetInstructionLowLevelIL [(StatusReg 3 0 1 0 0, "sctlr_el1")]
      (fun _ _ _ il => ⟨false, 0, il⟩) (bytes32 0xD5380320) 0x1000 4 ⟨[]⟩ = ⟨false, 0, ⟨[]⟩⟩ := by
  decide

/-- C16 (amended): the word `0xD5380320` has `Xt = 0` and fields `(3, 0, 0, 3, 1)`; the
word with `Xt = 0` and SCTLR_EL1's fields `(3, 0, 1, 0, 0)` is `0xD5381000`. For either
word, with a registry that contains the key of the word's own fields, the word is
classified as MRS, the lowerer leaves length 4, returns success and appends one MRS
operation with output register `34 + 0` and input register `MSR_BASE +` that key. -/
theorem C16_example_words (msr : Registry) (base : BaseLifter) (rest : List Nat)
    (addr len : Nat) (il : LowLevelILFunction) (hlen : 4 ≤ len) :
    (SrXt 0xD5380320 = 0 ∧
      (SrOp0 0xD5380320, SrOp1 0xD5380320, SrCn 0xD5380320, SrCm 0xD5380320,
        SrOp2 0xD5380320) = (3, 0, 0, 3, 1) ∧
      (StatusReg 3 0 0 3 1 ∈ msr.keys →
        DecodeIntrinsic msr (bytes32 0xD5380320 ++ rest) len = A64.MRS ∧
        GetInstructionLowLevelIL msr base (bytes32 0xD5380320 ++ rest) addr len il =
          ⟨true, 4, ⟨il.instrs ++ [ILInstruction.Intrinsic
            [RegisterOrFlag.Register (34 + 0)] A64.MRS
            [ILExpr.Register 4 (A64.MSR_BASE + StatusReg 3 0 0 3 1)]]⟩⟩)) ∧
    (SrXt 0xD5381000 = 0 ∧
      (SrOp0 0xD5381000, SrOp1 0xD5381000, SrCn 0xD5381000, SrCm 0xD5381000,
        SrOp2 0xD5381000) = (3, 0, 1, 0, 0) ∧
      (StatusReg 3 0 1 0 0 ∈ msr.keys →
        DecodeIntrinsic msr (bytes32 0xD5381000 ++ rest) len = A64.MRS ∧
        GetInstructionLowLevelIL msr base (bytes32 0xD5381000 ++ rest) addr len il =
          ⟨true, 4, ⟨il.instrs ++ [ILInstruction.Intrinsic
            [RegisterOrFlag.Register (34 + 0)] A64.MRS
            [ILExpr.Register 4 (A64.MSR_BASE + StatusReg 3 0 1 0 0)]]⟩⟩)) := by
  refine ⟨⟨by decide, by decide, ?_⟩, ⟨by decide, by decide, ?_⟩⟩
  · intro hk
    have hd := mrs_of_class msr (by decide : 0xD5380320 < 2 ^ 32) rest hlen (by decide)
      (by decide) hk
    exact ⟨hd, lower_mrs msr base (by decide) rest addr len il hd⟩
  · intro hk
    have hd := mrs_of_class msr (by decide : 0xD5381000 < 2 ^ 32) rest hlen (by decide)
      (by decide) hk
    exact ⟨hd, lower_mrs msr base (by decide) rest addr len il hd⟩

theorem C16_example_words_witness :
    (4 ≤ 4 ∧ StatusReg 3 0 1 0 0 ∈ Registry.keys [(0xC080, "sctlr_el1")]) ∧
    DecodeIntrinsic [(0xC080, "sctlr_el1")] (bytes32 0xD5381000 ++ []) 4 = A64.MRS ∧
    GetInstructionLowLevelIL [(0xC080, "sctlr_el1")] (fun _ _ _ il => ⟨false, 0, il⟩)
        (bytes32 0xD5381000 ++ []) 0x1000 4 ⟨[]⟩ =
      ⟨true, 4, ⟨[] ++ [ILInstruction.Intrinsic
        [RegisterOrFlag.Register (34 + 0)] A64.MRS
        [ILExpr.Register 4 (A64.MSR_BASE + StatusReg 3 0 1 0 0)]]⟩⟩ :=
  ⟨⟨by decide, by decide⟩,
    (C16_example_words [(0xC080, "sctlr_el1")] (fun _ _ _ il => ⟨false, 0, il⟩) [] 0x1000 4
      ⟨[]⟩ (by decide)).2.2.2 (by decide)⟩

/-- A word matching the ISB pattern under the ISB mask has bit 14 clear. -/
theorem isb_bit14 {w : Nat} (h : w &&& 0b11111111111111111111000011111111
    = 0b11010101000000110011000011011111) : w.testBit 14 = false := by
  have h1 := testBit_of_and_eq h 14
  have h2 : Nat.testBit 0b11111111111111111111000011111111 14 = true := by decide
  have h3 : Nat.testBit 0b11010101000000110011000011011111 14 = false := by decide
  rw [h2, h3] at h1
  simpa using h1

/-- A word passing the MSR_IMM test has bit 14 set. -/
theorem msr_imm_bit14 {w : Nat} (h : w &&& 0b11010101000000000100000000011111
    = 0b11010101000000000100000000011111) : w.testBit 14 = true := by
  have h1 := testBit_of_and_eq h 14
  have h2 : Nat.testBit 0b11010101000000000100000000011111 14 = true := by decide
  rw [h2] at h1
  simpa using h1

/-- C17 (the code at the failing inputs): the six tests are not disjoint. The word
`0xD53B421F` passes the MSR_IMM test and the MRS class test, and is classified MSR_IMM
because that test comes first; the word `0xD51B421F` passes the MSR_REG class test and
the MSR_IMM test, and is classified MSR_REG because that test comes first. The overlaps
all involve the MSR_IMM test: a word passing the ISB test passes none of the other
five, WFI and WFE pass no other test, and no word is in both the MSR_REG and the MRS
class. -/
theorem C17_msr_imm_test_overlaps :
    (0xD53B421F &&& 0xD500401F = 0xD500401F ∧ 0xD53B421F >>> 20 = 0xD53 ∧
      DecodeIntrinsic [(0xDA10, "nzcv")] (bytes32 0xD53B421F) 4 = A64.MSR_IMM) ∧
    (0xD51B421F >>> 20 = 0xD51 ∧ 0xD51B421F &&& 0xD500401F = 0xD500401F ∧
      DecodeIntrinsic [(0xDA10, "nzcv")] (bytes32 0xD51B421F) 4 = A64.MSR_REG) ∧
    (∀ w : Nat, w &&& 0xFFFFF0FF = 0xD50330DF →
      w ≠ 0xD503207F ∧ w ≠ 0xD503205F ∧ w >>> 20 ≠ 0xD51 ∧
      w &&& 0xD500401F ≠ 0xD500401F ∧ w >>> 20 ≠ 0xD53) ∧
    (∀ w : Nat, w = 0xD503207F ∨ w = 0xD503205F →
      w >>> 20 ≠ 0xD51 ∧ w &&& 0xD500401F ≠ 0xD500401F ∧ w >>> 20 ≠ 0xD53) ∧
    (∀ w : Nat, w >>> 20 = 0xD51 → w >>> 20 ≠ 0xD53) := by
  refine ⟨by decide, by decide, ?_, ?_, ?_⟩
  · intro w h
    refine ⟨?_, ?_, ?_, ?_, ?_⟩
    · rintro rfl
      exact absurd h (by decide)
    · rintro rfl
      exact absurd h (by decide)
    · intro hc
      exact (msr_reg_class_excl hc).1 h
    · intro hi
      have := isb_bit14 h
      rw [msr_imm_bit14 hi] at this
      exact absurd this (by decide)
    · intro hc
      exact (mrs_class_excl hc).1 h
  · rintro w (rfl | rfl) <;> decide
  · intro w h
    rw [h]
    decide

/-- The ids appended for the entries of a registry with unique 32-bit keys are
distinct. -/
theorem synthesized_nodup {msr : Registry} (h32 : ∀ k ∈ msr.keys, k < 2 ^ 32)
    (hnd : msr.keys.Nodup) : (msr.map (fun ii => u32 (A64.MSR_BASE + ii.1))).Nodup := by
  have e : msr.map (fun ii => u32 (A64.MSR_BASE + ii.1))
      = msr.keys.map (fun k => u32 (A64.MSR_BASE + k)) := by
    simp [Registry.keys, List.map_map, Function.comp_def]
  rw [e]
  exact List.Nodup.map_on (fun x hx y hy hxy => synth_inj (h32 x hx) (h32 y hy) hxy) hnd

/-- C18: `GetAllRegisters`, `GetSystemRegisters` and `GetFullWidthRegisters` each
return the base architecture's list unchanged, followed by one and the same suffix:
`MSR_BASE + key` (32-bit arithmetic) for every registry entry, in the registry's
iteration order. The suffix has one id per entry, and for a registry with unique 32-bit
keys it has no duplicate. -/
theorem C18_register_lists_extended (msr : Registry) (baseAll baseSys baseFull : List Nat)
    (h32 : ∀ k ∈ msr.keys, k < 2 ^ 32) (hnd : msr.keys.Nodup) :
    GetAllRegisters msr baseAll = baseAll ++ msr.map (fun e => u32 (A64.MSR_BASE + e.1)) ∧
    GetSystemRegisters msr baseSys = baseSys ++ msr.map (fun e => u32 (A64.MSR_BASE + e.1)) ∧
    GetFullWidthRegisters msr baseFull
      = baseFull ++ msr.map (fun e => u32 (A64.MSR_BASE + e.1)) ∧
    (msr.map (fun e => u32 (A64.MSR_BASE + e.1))).length = msr.length ∧
    (msr.map (fun e => u32 (A64.MSR_BASE + e.1))).Nodup ∧
    (∀ a ∈ msr.keys, ∀ b ∈ msr.keys, u32 (A64.MSR_BASE + a) = u32 (A64.MSR_BASE + b) → a = b) :=
  ⟨rfl, rfl, rfl, List.length_map _ _, synthesized_nodup h32 hnd,
    fun a ha b hb h => synth_inj (h32 a ha) (h32 b hb) h⟩

theorem C18_register_lists_extended_witness :
    ((∀ k ∈ Registry.keys [(0xC080, "sctlr_el1"), (0xDA10, "nzcv")], k < 2 ^ 32) ∧
      (Registry.keys [(0xC080, "sctlr_el1"), (0xDA10, "nzcv")]).Nodup) ∧
    GetAllRegisters [(0xC080, "sctlr_el1"), (0xDA10, "nzcv")] [0, 1, 2] =
      [0, 1, 2] ++ [0x10280, 0x11C10] ∧
    GetSystemRegisters [(0xC080, "sctlr_el1"), (0xDA10, "nzcv")] [] =
      [] ++ [0x10280, 0x11C10] ∧
    GetFullWidthRegisters [(0xC080, "sctlr_el1"), (0xDA10, "nzcv")] [34, 35] =
      [34, 35] ++ [0x10280, 0x11C10] :=
  ⟨⟨by decide, by decide⟩,
    (C18_register_lists_extended [(0xC080, "sctlr_el1"), (0xDA10, "nzcv")] [0, 1, 2] []
      [34, 35] (by decide) (by decide)).1,
    (C18_register_lists_extended [(0xC080, "sctlr_el1"), (0xDA10, "nzcv")] [0, 1, 2] []
      [34, 35] (by decide) (by decide)).2.1,
    (C18_register_lists_extended [(0xC080, "sctlr_el1"), (0xDA10, "nzcv")] [0, 1, 2] []
      [34, 35] (by decide) (by decide)).2.2.1⟩

/-- The map after `ValidStatusReg` is the map before it. -/
theorem ValidStatusReg_frame (m : MapState) (o0 o1 Cn Cm o2 : Nat) :
    (Stateful.ValidStatusReg m o0 o1 Cn Cm o2).2 = m := rfl

/-- On the registry as loaded, the state-passing `ValidStatusReg` answers as
`ValidStatusReg` does. -/
theorem ValidStatusReg_value (msr : Registry) (o0 o1 Cn Cm o2 : Nat) :
    (Stateful.ValidStatusReg msr.state o0 o1 Cn Cm o2).1 = ValidStatusReg msr o0 o1 Cn Cm o2 := by
  simp only [Stateful.ValidStatusReg, ValidStatusReg, find_state]
  cases msr.find (StatusReg o0 o1 Cn Cm o2) <;> rfl

/-- A guarded call of `ValidStatusReg` leaves the map as it is, whether or not the call
is made. -/
theorem guarded_frame (c : Prop) [Decidable c] (m : MapState) (o0 o1 Cn Cm o2 : Nat) :
    (if c then Stateful.ValidStatusReg m o0 o1 Cn Cm o2 else (false, m)).2 = m := by
  split_ifs <;> rfl

/-- A guarded call of `ValidStatusReg` on the registry as loaded succeeds exactly when
the guard holds and `ValidStatusReg` does. -/
theorem guarded_value (c : Prop) [Decidable c] (msr : Registry) (o0 o1 Cn Cm o2 : Nat) :
    ((if c then Stateful.ValidStatusReg msr.state o0 o1 Cn Cm o2 else (false, msr.state)).1
      = true) ↔ (c ∧ ValidStatusReg msr o0 o1 Cn Cm o2 = true) := by
  split_ifs with h
  · rw [ValidStatusReg_value]
    exact ⟨fun hv => ⟨h, hv⟩, fun hv => hv.2⟩
  · exact ⟨fun hv => absurd hv (by decide), fun hv => absurd hv.1 h⟩

/-- The map after `DecodeIntrinsic` is the map before it. -/
theorem DecodeIntrinsic_frame (m : MapState) (data : List Nat) (sz : Nat) :
    (Stateful.DecodeIntrinsic m data sz).2 = m := by
  unfold Stateful.DecodeIntrinsic
  simp only [guarded_frame]
  split_ifs <;> rfl

/-- On the registry as loaded, the state-passing `DecodeIntrinsic` classifies as
`DecodeIntrinsic` does. -/
theorem DecodeIntrinsic_value (msr : Registry) (data : List Nat) (sz : Nat) :
    (Stateful.DecodeIntrinsic msr.state data sz).1 = DecodeIntrinsic msr data sz := by
  unfold Stateful.DecodeIntrinsic DecodeIntrinsic
  simp only [guarded_frame, guarded_value]
  split_ifs <;> rfl

/-- The map after `GetRegisterName` is the map before it, whatever the map holds. -/
theorem GetRegisterName_frame (m : MapState) (baseName : Nat → String) (reg : Nat) :
    (Stateful.GetRegisterName m baseName reg).2 = m := by
  simp only [Stateful.GetRegisterName, Stateful.StatusRegName, MapState.index]
  cases h : MapState.find m (sub32 reg A64.MSR_BASE) with
  | none => simp
  | some v => simp

/-- On the registry as loaded, the state-passing `GetRegisterInfo` answers as
`GetRegisterInfo` does, and leaves the map alone. -/
theorem GetRegisterInfo_stateful (msr : Registry) (baseInfo : Nat → BNRegisterInfo)
    (reg : Nat) :
    Stateful.GetRegisterInfo msr.state baseInfo reg
      = (GetRegisterInfo msr baseInfo reg, msr.state) := by
  simp only [Stateful.GetRegisterInfo, GetRegisterInfo, find_state]
  cases msr.find (sub32 reg A64.MSR_BASE) <;> simp

/-- The map after `GetRegisterInfo` is the map before it. -/
theorem GetRegisterInfo_frame (m : MapState) (baseInfo : Nat → BNRegisterInfo) (reg : Nat) :
    (Stateful.GetRegisterInfo m baseInfo reg).2 = m := by
  simp only [Stateful.GetRegisterInfo]
  split_ifs <;> rfl

/-- The ids the enumerations append are the same on the registry as loaded. -/
theorem state_ids (msr : Registry) :
    msr.state.map (fun ii => u32 (A64.MSR_BASE + ii.1))
      = msr.map (fun ii => u32 (A64.MSR_BASE + ii.1)) := by
  simp [Registry.state, List.map_map, Function.comp_def]

/-- An inserted entry makes the map longer by one. -/
theorem length_insertDefault (m : MapState) (key : Nat) :
    (MapState.insertDefault m key).length = m.length + 1 := by
  induction m with
  | nil => rfl
  | cons e t ih =>
    simp only [MapState.insertDefault]
    split_ifs
    · rfl
    · simp [ih]

/-- After the insertion the key is found, with a null value. -/
theorem find_insertDefault (m : MapState) (key : Nat) (h : MapState.find m key = none) :
    MapState.find (MapState.insertDefault m key) key = some none := by
  induction m with
  | nil => simp [MapState.insertDefault, MapState.find, List.lookup]
  | cons e t ih =>
    obtain ⟨k, v⟩ := e
    simp only [MapState.find] at h ih ⊢
    have hne : (key == k) = false := by
      cases hb : (key == k) with
      | false => rfl
      | true => simp [List.lookup, hb] at h
    have ht : List.lookup key t = none := by simpa [List.lookup, hne] using h
    simp only [MapState.insertDefault]
    split_ifs
    · simp [List.lookup]
    · simp only [List.lookup, hne]
      exact ih ht

/-- C19: the registry is unchanged by every query. The map is passed through each call:
`find` and the iterations leave it as it is, `operator[]` inserts a null entry at the
key's place when the key is absent (so `StatusRegName` on an absent key does change the
map). For every map and every argument, the map after `GetRegisterName`, after
`ValidStatusReg`, after `DecodeIntrinsic`, after `GetRegisterInfo` and after each of the
three enumerations is the map before it; `GetRegisterName` reaches `StatusRegName` only
after a successful `find`. On the registry as loaded the state-passing queries return
what their pure counterparts return. -/
theorem C19_registry_unchanged (m : MapState) (msr : Registry) (baseName : Nat → String)
    (baseInfo : Nat → BNRegisterInfo) (baseRegs : List Nat) (reg : Nat) (data : List Nat)
    (sz o0 o1 Cn Cm o2 : Nat) :
    ((Stateful.GetRegisterName m baseName reg).2 = m ∧
      (GetRegisterName msr baseName reg).2 = msr.state) ∧
    ((Stateful.ValidStatusReg m o0 o1 Cn Cm o2).2 = m ∧
      (Stateful.DecodeIntrinsic m data sz).2 = m ∧
      (Stateful.GetRegisterInfo m baseInfo reg).2 = m ∧
      (Stateful.GetAllRegisters m baseRegs).2 = m ∧
      (Stateful.GetSystemRegisters m baseRegs).2 = m ∧
      (Stateful.GetFullWidthRegisters m baseRegs).2 = m) ∧
    ((Stateful.ValidStatusReg msr.state o0 o1 Cn Cm o2).1 = ValidStatusReg msr o0 o1 Cn Cm o2 ∧
      (Stateful.DecodeIntrinsic msr.state data sz).1 = DecodeIntrinsic msr data sz ∧
      (Stateful.GetRegisterInfo msr.state baseInfo reg).1 = GetRegisterInfo msr baseInfo reg ∧
      (Stateful.GetAllRegisters msr.state baseRegs).1 = GetAllRegisters msr baseRegs ∧
      (Stateful.GetSystemRegisters msr.state baseRegs).1 = GetSystemRegisters msr baseRegs ∧
      (Stateful.GetFullWidthRegisters msr.state baseRegs).1
        = GetFullWidthRegisters msr baseRegs) ∧
    (∀ key, (MapState.find m key).isSome = true → (Stateful.StatusRegName m key).2 = m) ∧
    (∀ key, MapState.find m key = none →
      Stateful.StatusRegName m key = (none, MapState.insertDefault m key) ∧
      MapState.find (Stateful.StatusRegName m key).2 key = some none ∧
      (Stateful.StatusRegName m key).2.length = m.length + 1 ∧
      (Stateful.StatusRegName m key).2 ≠ m) := by
  refine ⟨⟨GetRegisterName_frame m baseName reg, GetRegisterName_frame msr.state baseName reg⟩,
    ⟨rfl, DecodeIntrinsic_frame m data sz, GetRegisterInfo_frame m baseInfo reg, rfl, rfl, rfl⟩,
    ⟨ValidStatusReg_value msr o0 o1 Cn Cm o2, DecodeIntrinsic_value msr data sz, ?_, ?_, ?_, ?_⟩,
    ?_, ?_⟩
  · rw [GetRegisterInfo_stateful]
  · simp only [Stateful.GetAllRegisters, GetAllRegisters, state_ids]
  · simp only [Stateful.GetSystemRegisters, GetSystemRegisters, state_ids]
  · simp only [Stateful.GetFullWidthRegisters, GetFullWidthRegisters, state_ids]
  · intro key hk
    obtain ⟨v, hv⟩ := Option.isSome_iff_exists.1 hk
    simp [Stateful.StatusRegName, MapState.index, hv]
  · intro key hk
    have e : Stateful.StatusRegName m key = (none, MapState.insertDefault m key) := by
      simp [Stateful.StatusRegName, MapState.index, hk]
    refine ⟨e, ?_, ?_, ?_⟩
    · rw [e]
      exact find_insertDefault m key hk
    · rw [e]
      exact length_insertDefault m key
    · rw [e]
      intro heq
      have := congrArg List.length heq
      simp only [length_insertDefault] at this
      omega

theorem C19_registry_unchanged_witness :
    (GetRegisterName [(0xC080, "sctlr_el1")] (fun _ => "x0") 0x10280
      = ("sctlr_el1", [(0xC080, some "sctlr_el1")])) ∧
    (GetRegisterName [(0xC080, "sctlr_el1")] (fun _ => "x0") 34).2
      = [(0xC080, some "sctlr_el1")] ∧
    (Stateful.DecodeIntrinsic [(0xC080, some "sctlr_el1")] (bytes32 0xD5381000) 4).2
      = [(0xC080, some "sctlr_el1")] ∧
    (MapState.find [(0xC080, some "sctlr_el1")] 0x9A06 = none ∧
      Stateful.StatusRegName [(0xC080, some "sctlr_el1")] 0x9A06
        = (none, [(0x9A06, none), (0xC080, some "sctlr_el1")])) :=
  ⟨Prod.ext (by decide)
      (C19_registry_unchanged [] [(0xC080, "sctlr_el1")] (fun _ => "x0")
        (fun r => ⟨r, 0, 8, ImplicitRegisterExtend.NoExtend⟩) [] 0x10280 [] 0 0 0 0 0 0).1.2,
    (C19_registry_unchanged [] [(0xC080, "sctlr_el1")] (fun _ => "x0")
      (fun r => ⟨r, 0, 8, ImplicitRegisterExtend.NoExtend⟩) [] 34 [] 0 0 0 0 0 0).1.2,
    (C19_registry_unchanged [(0xC080, some "sctlr_el1")] [] (fun _ => "x0")
      (fun r => ⟨r, 0, 8, ImplicitRegisterExtend.NoExtend⟩) [] 34 (bytes32 0xD5381000) 4
      0 0 0 0 0).2.1.2.1,
    by decide,
    ((C19_registry_unchanged [(0xC080, some "sctlr_el1")] [] (fun _ => "x0")
      (fun r => ⟨r, 0, 8, ImplicitRegisterExtend.NoExtend⟩) [] 34 [] 0 0 0 0 0 0).2.2.2.2
      0x9A06 (by decide)).1⟩

/-- The key of a word is `0x8000` plus bits 19:5 of the word. -/
theorem insKey_eq_bits (w : Nat) : insKey w = 0x8000 ||| ((w >>> 5) &&& 0x7FFF) := by
  have hm : (w >>> 5) &&& 0x7FFF = w / 2 ^ 5 % 2 ^ 15 := by
    rw [show (0x7FFF : Nat) = 2 ^ 15 - 1 from rfl, Nat.and_pow_two_sub_one_eq_mod,
      Nat.shiftRight_eq_div_pow]
  rw [hm, or_eq_add_of_dvd 15 (Nat.mod_lt _ (by norm_num)) (by norm_num), insKey_eq_add]
  omega

/-- C20: for every word `w`, the key `StatusReg (SrOp0 w) (SrOp1 w) (SrCn w) (SrCm w)
(SrOp2 w)` equals `0x8000 | ((w >> 5) & 0x7FFF)`. It therefore depends only on bits 19:5
of the word, lies in `[0x8000, 0xFFFF]`, the id `MSR_BASE + key` lies in
`[0xC200, 0x141FF]`, this is the id the lowerer places in the operation of a word
classified MSR_REG or MRS, and a registry entry with a key below `0x8000` is the key of
no word. -/
theorem C20_key_is_bits_19_5 (w : Nat) :
    StatusReg (SrOp0 w) (SrOp1 w) (SrCn w) (SrCm w) (SrOp2 w)
      = 0x8000 ||| ((w >>> 5) &&& 0x7FFF) ∧
    (∀ v : Nat, (v >>> 5) &&& 0x7FFF = (w >>> 5) &&& 0x7FFF →
      StatusReg (SrOp0 v) (SrOp1 v) (SrCn v) (SrCm v) (SrOp2 v)
        = StatusReg (SrOp0 w) (SrOp1 w) (SrCn w) (SrCm w) (SrOp2 w)) ∧
    (0x8000 ≤ StatusReg (SrOp0 w) (SrOp1 w) (SrCn w) (SrCm w) (SrOp2 w) ∧
      StatusReg (SrOp0 w) (SrOp1 w) (SrCn w) (SrCm w) (SrOp2 w) ≤ 0xFFFF) ∧
    (0xC200 ≤ u32 (A64.MSR_BASE + StatusReg (SrOp0 w) (SrOp1 w) (SrCn w) (SrCm w) (SrOp2 w)) ∧
      u32 (A64.MSR_BASE + StatusReg (SrOp0 w) (SrOp1 w) (SrCn w) (SrCm w) (SrOp2 w))
        ≤ 0x141FF) ∧
    (∀ (msr : Registry) (base : BaseLifter) (rest : List Nat) (addr len : Nat)
        (il : LowLevelILFunction), w < 2 ^ 32 →
      (DecodeIntrinsic msr (bytes32 w ++ rest) len = A64.MSR_REG →
        ∃ r, GetInstructionLowLevelIL msr base (bytes32 w ++ rest) addr len il =
            ⟨true, 4, ⟨il.instrs ++ [ILInstruction.Intrinsic [RegisterOrFlag.Register r]
              A64.MSR_REG [ILExpr.Register 8 (34 + w % 32)]]⟩⟩ ∧
          0xC200 ≤ r ∧ r ≤ 0x141FF) ∧
      (DecodeIntrinsic msr (bytes32 w ++ rest) len = A64.MRS →
        ∃ r, GetInstructionLowLevelIL msr base (bytes32 w ++ rest) addr len il =
            ⟨true, 4, ⟨il.instrs ++ [ILInstruction.Intrinsic
              [RegisterOrFlag.Register (34 + w % 32)] A64.MRS [ILExpr.Register 4 r]]⟩⟩ ∧
          0xC200 ≤ r ∧ r ≤ 0x141FF)) ∧
    (∀ k : Nat, k < 0x8000 →
      StatusReg (SrOp0 w) (SrOp1 w) (SrCn w) (SrCm w) (SrOp2 w) ≠ k) := by
  have hk : StatusReg (SrOp0 w) (SrOp1 w) (SrCn w) (SrCm w) (SrOp2 w) = insKey w := rfl
  have hadd := insKey_eq_add w
  have hlt := insKey_lt w
  have hge : 0x8000 ≤ insKey w := by
    rw [hadd]
    omega
  rw [hk]
  refine ⟨insKey_eq_bits w, ?_, ⟨hge, by omega⟩, ?_, ?_, ?_⟩
  · intro v hv
    show insKey v = insKey w
    rw [insKey_eq_bits v, insKey_eq_bits w, hv]
  · simp only [u32, A64.MSR_BASE]
    omega
  · intro msr base rest addr len il hw
    constructor
    · intro h
      exact ⟨A64.MSR_BASE + insKey w, lower_msr_reg msr base hw rest addr len il h,
        by simp only [A64.MSR_BASE]; omega, by simp only [A64.MSR_BASE]; omega⟩
    · intro h
      exact ⟨A64.MSR_BASE + insKey w, lower_mrs msr base hw rest addr len il h,
        by simp only [A64.MSR_BASE]; omega, by simp only [A64.MSR_BASE]; omega⟩
  · intro k hk8
    omega

theorem C20_key_is_bits_19_5_witness :
    (0xD53B4203 < 2 ^ 32 ∧
      DecodeIntrinsic [(0xDA10, "nzcv")] (bytes32 0xD53B4203 ++ []) 4 = A64.MRS) ∧
    StatusReg (SrOp0 0xD53B4203) (SrOp1 0xD53B4203) (SrCn 0xD53B4203) (SrCm 0xD53B4203)
        (SrOp2 0xD53B4203) = 0x8000 ||| ((0xD53B4203 >>> 5) &&& 0x7FFF) ∧
    ∃ r, GetInstructionLowLevelIL [(0xDA10, "nzcv")] (fun _ _ _ il => ⟨false, 0, il⟩)
          (bytes32 0xD53B4203 ++ []) 0x1000 4 ⟨[]⟩ =
        ⟨true, 4, ⟨[] ++ [ILInstruction.Intrinsic
          [RegisterOrFlag.Register (34 + 0xD53B4203 % 32)] A64.MRS [ILExpr.Register 4 r]]⟩⟩ ∧
      0xC200 ≤ r ∧ r ≤ 0x141FF :=
  ⟨⟨by decide, by decide⟩, (C20_key_is_bits_19_5 0xD53B4203).1,
    ((C20_key_is_bits_19_5 0xD53B4203).2.2.2.2.1 [(0xDA10, "nzcv")]
      (fun _ _ _ il => ⟨false, 0, il⟩) [] 0x1000 4 ⟨[]⟩ (by decide)).2 (by decide)⟩

end arm64Intrinsics
